import Mathlib

/-!
# Verification of the MeshCentral-ScriptTask scheduler and remediation engine

This development is a shallow embedding, in Lean 4, of the scheduler and
remediation-workflow subsystems of the MeshCentral-ScriptTask plugin
(`src/scheduler/index.js`, `src/scheduler/maintenance-windows.js`,
`src/remediation/engine.js`, `src/remediation/escalation.js` (which also
contains `ConditionEvaluator`), `src/remediation/actions.js`, and the
workflow builder).  The JavaScript is translated function by function:

* JavaScript numbers appearing as counters, timestamps and limits are
  modelled as `Int` (or `Nat` for counts); the condition evaluator, which
  genuinely coerces arbitrary values, gets a small `JSValue` universe with
  rationals standing in for the float values exercised here.
* `x || default` on numbers/strings is translated explicitly (`0`, `""`,
  `null`/`undefined` are falsy).
* Database and host-library calls (`db.find…`, `croner`'s `previous()`,
  `new URL`, `new RegExp`, `JSON.parse`) are effects of external
  collaborators; they enter the model as explicit parameters, with `Except`
  results standing for calls that may throw.
* try/catch blocks are translated to explicit matches on those `Except`
  results, placed exactly where the source places its handlers.
-/

namespace ScriptTask

/-- JavaScript truthiness of an optional string (`undefined` and `""` are
falsy). -/
def truthyS : Option String → Bool
  | none => false
  | some s => s ≠ ""

/-- JavaScript truthiness of an optional number (`undefined`, `NaN` not
modelled here, and `0` are falsy). -/
def truthyI : Option Int → Bool
  | none => false
  | some v => v ≠ 0

/-- The `x || d` idiom on an optional numeric field: `undefined` and `0`
fall back to the default. -/
def jsOrI (x : Option Int) (d : Int) : Int :=
  match x with
  | none => d
  | some v => if v = 0 then d else v

/-- The `x || d` idiom on an optional string field: `undefined` and `""`
fall back to the default. -/
def jsOrS (x : Option String) (d : String) : String :=
  match x with
  | none => d
  | some s => if s = "" then d else s

/-- Transition targets are followed only when truthy (`if (step.onSuccess)
detectCycle(step.onSuccess…)`): `""` behaves like an absent target. -/
def truthyTarget : Option String → Option String
  | none => none
  | some s => if s = "" then none else some s

end ScriptTask

namespace ScriptTask

/-! ## Scheduler: dependency and concurrency gates (`src/scheduler/index.js`) -/

/-- The fields of a job record consulted by `checkConcurrencyLimits`
(the database query already restricts to `state ∈ {pending, running}`,
so the returned list is the `runningJobs` array of the source). -/
structure SJob where
  node : String
  state : String
deriving Repr, DecidableEq

/-- Per-schedule concurrency limits (`schedule.concurrency`). -/
structure Concurrency where
  maxPerNode : Option Int := none
  maxPerMesh : Option Int := none
  maxGlobal : Option Int := none
deriving Repr, DecidableEq

namespace AdvancedScheduler

/-- `AdvancedScheduler.checkConcurrencyLimits` (src/scheduler/index.js,
lines 297–344).  `lookup` is the `db.scriptFile.find({type:'job',
state:{$in:['pending','running']}})` call; a thrown lookup is the
`.error` case and is caught by the method's `catch`, which returns `true`
("Allow on error").  `meshOf` is the `wsagents` table: `meshOf n = some k`
when node `n` has a connected agent with `dbMeshKey = k`. -/
def checkConcurrencyLimits (lookup : Except Unit (List SJob))
    (meshOf : String → Option String) (maxConcurrentJobs : Option Int)
    (concurrency : Option Concurrency) (nodeId : String) : Bool :=
  match lookup with
  | .error _ => true
  | .ok runningJobs =>
    -- per-node limit: `schedule.concurrency && schedule.concurrency.maxPerNode`
    if (match concurrency with
        | some c => truthyI c.maxPerNode &&
            ((runningJobs.filter (fun (j : SJob) => j.node == nodeId)).length : Int) ≥
              (c.maxPerNode.getD 0)
        | none => false) then false
    -- per-mesh limit, only when the target node has a connected agent
    else if (match concurrency with
        | some c => truthyI c.maxPerMesh &&
            (match meshOf nodeId with
             | some meshKey =>
                ((runningJobs.filter (fun (j : SJob) =>
                    (meshOf j.node).any (fun k => k == meshKey))).length : Int) ≥
                  (c.maxPerMesh.getD 0)
             | none => false)
        | none => false) then false
    -- global limit
    else if (match concurrency with
        | some c => truthyI c.maxGlobal &&
            ((runningJobs.length : Int) ≥ (c.maxGlobal.getD 0))
        | none => false) then false
    -- system-wide limit: `this.config.maxConcurrentJobs || 50`
    else if (runningJobs.length : Int) ≥ jsOrI maxConcurrentJobs 50 then false
    else true

/-- The `lastRun` field of a dependency schedule, as read by
`checkDependencies`. -/
structure DepSched where
  lastRun : Option Int := none
deriving Repr, DecidableEq

/-- `AdvancedScheduler.checkDependencies` (src/scheduler/index.js, lines
195–219).  `lookup` is the per-dependency `findOne`; a thrown lookup is
caught by the method's `catch`, which returns `false`.  `lastRun` is the
current schedule's own `lastRun`. -/
def checkDependencies (lookup : String → Except Unit (Option DepSched))
    (dependsOn : List String) (lastRun : Option Int) : Bool :=
  match dependsOn with
  | [] => true
  | depId :: rest =>
    match lookup depId with
    | .error _ => false
    | .ok none => false
    | .ok (some depSchedule) =>
      if ¬ truthyI depSchedule.lastRun then false
      else if truthyI lastRun &&
          depSchedule.lastRun.getD 0 < lastRun.getD 0 then false
      else checkDependencies lookup rest lastRun

/-- `AdvancedScheduler.getPriorityValue` (src/scheduler/index.js, lines
369–377): `priorities[priority] || 2`, where the table maps critical→0,
high→1, normal→2, low→3.  Note the looked-up `0` is falsy. -/
def getPriorityValue (priority : String) : Int :=
  let priorities : Option Int :=
    if priority = "critical" then some 0
    else if priority = "high" then some 1
    else if priority = "normal" then some 2
    else if priority = "low" then some 3
    else none
  jsOrI priorities 2

/-- The priority weight given to a queue entry by
`AdvancedScheduler.queueScheduleForLater` (src/scheduler/index.js, lines
179–188): `this.getPriorityValue(schedule.priority) + 1`. -/
def queueScheduleForLaterPriority (priority : String) : Int :=
  getPriorityValue priority + 1

end AdvancedScheduler

/-! ## Escalation manager (`src/remediation/escalation.js`) -/

/-- A step's retry policy (`step.retryPolicy`). -/
structure RetryPolicy where
  maxAttempts : Option Int := none
  backoffType : Option String := none
  delaySeconds : Option Int := none
deriving Repr, DecidableEq

/-- One entry of an execution's `stepResults` array, restricted to the
fields this development reads (`stepId`, `status`, `retryCount`). -/
structure StepResultRec where
  stepId : String
  status : String
  retryCount : Option Nat := none
deriving Repr, DecidableEq

/-- The decision returned by `EscalationManager.handleStepFailure`. -/
structure RetryDecision where
  shouldRetry : Bool
  delay : Int
deriving Repr, DecidableEq

namespace EscalationManager

/-- `EscalationManager.handleStepFailure` (src/remediation/escalation.js,
lines 23–57), which is the retry decision (`decideRetry` of the
specification).  It reads the retry count from the execution's recorded
step results (`execution.stepResults.find(r => r.stepId === step.id)`),
computes the backoff delay and caps it at 3600 s.  Arguments are the
fields actually consulted: the execution's `stepResults`, the step's `id`
and its `retryPolicy` (`step.retryPolicy || {}`). -/
def handleStepFailure (stepResults : List StepResultRec) (stepId : String)
    (retryPolicy : Option RetryPolicy) : RetryDecision :=
  let policy := retryPolicy.getD {}
  let maxAttempts := jsOrI policy.maxAttempts 3
  let backoffType := jsOrS policy.backoffType "exponential"
  let baseDelay := jsOrI policy.delaySeconds 60
  let stepResult := stepResults.find? (fun r => r.stepId == stepId)
  -- `stepResult ? stepResult.retryCount || 0 : 0`
  let retryCount : Nat :=
    match stepResult with
    | some r => r.retryCount.getD 0
    | none => 0
  if (retryCount : Int) ≥ maxAttempts then ⟨false, 0⟩
  else
    let delay : Int :=
      if backoffType = "exponential" then baseDelay * 2 ^ retryCount
      else if backoffType = "linear" then baseDelay * ((retryCount : Int) + 1)
      else baseDelay
    ⟨true, min delay 3600⟩

end EscalationManager

namespace RemediationEngine

/-- The retry loop formed by `RemediationEngine.executeStep` and
`RemediationEngine.handleStepFailure` (src/remediation/engine.js, lines
223–303 and 581–620): when an attempt fails, the engine asks
`EscalationManager.handleStepFailure` for a decision against the
execution's recorded `stepResults` and, on `shouldRetry`, sleeps and
re-executes the same step.  Nothing in this loop writes to
`execution.stepResults` (the local `retryCount` computed on line 600 of
engine.js is discarded), so the list consulted by the decision is the
same on every iteration; the model therefore threads it unchanged.
`attemptFails k` tells whether the k-th execution attempt of the step
fails; `fuel` bounds the number of attempts the model observes.  `none`
means the loop was still running when `fuel` attempts had been made;
`some false` is a final (non-retried) failure, `some true` a success. -/
def retryLoop (attemptFails : Nat → Bool) (stepResults : List StepResultRec)
    (stepId : String) (retryPolicy : Option RetryPolicy) :
    Nat → Nat → Option Bool
  | 0, _ => none
  | fuel + 1, attempt =>
    if attemptFails attempt then
      let decision := EscalationManager.handleStepFailure stepResults stepId retryPolicy
      if decision.shouldRetry then
        retryLoop attemptFails stepResults stepId retryPolicy fuel (attempt + 1)
      else some false
    else some true

end RemediationEngine


/-! ## Condition evaluator (`ConditionEvaluator` in `src/remediation/escalation.js`)

The evaluator coerces arbitrary JavaScript values, so it gets a small
universe `JSValue` of the value shapes that occur in step results and
condition definitions.  Numbers are rationals with an explicit `NaN`
(`Option ℚ`, `none` = NaN); exotic host behaviours that the evaluator
cannot reach through its own coercions (string character indexing,
exponent notation in numeric literals, `Infinity`) are outside the model
and noted where they are cut off. -/

/-- A JavaScript value, as far as the condition evaluator observes it.
`num none` is `NaN`. -/
inductive JSValue where
  | null : JSValue
  | undefined : JSValue
  | bool : Bool → JSValue
  | num : Option ℚ → JSValue
  | str : String → JSValue
  | arr : List JSValue → JSValue
  | obj : List (String × JSValue) → JSValue
deriving Repr

/-- Property read `v[name]` as the evaluator performs it: object fields by
name, array `length` and numeric indices; reads on primitives give
`undefined` (string `length` is also modelled; character indexing on
strings is not used by the evaluator and is cut off to `undefined`). -/
def getProp (v : JSValue) (name : String) : JSValue :=
  match v with
  | .obj fields =>
    match fields.find? (fun f => f.1 == name) with
    | some f => f.2
    | none => .undefined
  | .arr xs =>
    if name = "length" then .num (some xs.length)
    else match name.toNat? with
      | some i => xs.getD i .undefined
      | none => .undefined
  | .str s =>
    if name = "length" then .num (some s.length)
    else .undefined
  | _ => .undefined

/-- Value of a run of decimal digits. -/
def digitsVal (ds : List Char) : Nat :=
  ds.foldl (fun acc c => acc * 10 + (c.toNat - 48)) 0

/-- Parse a leading decimal literal `[+-]? digits [. digits]` from a
character list, returning its value and the unconsumed rest; `none` when
no digit is consumed (exponent notation and `Infinity` are outside the
model). -/
def parseDecimal (cs : List Char) : Option (ℚ × List Char) :=
  let (sign, cs1) : ℚ × List Char :=
    match cs with
    | '-' :: r => (-1, r)
    | '+' :: r => (1, r)
    | _ => (1, cs)
  let ip := cs1.takeWhile Char.isDigit
  let cs2 := cs1.dropWhile Char.isDigit
  let (fp, rest) : List Char × List Char :=
    match cs2 with
    | '.' :: r => (r.takeWhile Char.isDigit, r.dropWhile Char.isDigit)
    | _ => ([], cs2)
  if ip.isEmpty ∧ fp.isEmpty then none
  else some (sign * ((digitsVal ip : ℚ) + (digitsVal fp : ℚ) / 10 ^ fp.length), rest)

/-- JavaScript `parseFloat`: skip leading whitespace, read the longest
numeric prefix, `NaN` when there is none. -/
def parseFloatJS (s : String) : Option ℚ :=
  (parseDecimal (s.toList.dropWhile Char.isWhitespace)).map (fun p => p.1)

/-- Whitespace trim on a character list (`String.prototype.trim`). -/
def trimChars (cs : List Char) : List Char :=
  ((cs.dropWhile Char.isWhitespace).reverse.dropWhile Char.isWhitespace).reverse

/-- ES `ToNumber` on a string: the trimmed empty string is `0`; otherwise
the whole trimmed string must be a decimal literal, else `NaN`. -/
def strToNumber (s : String) : Option ℚ :=
  let t := trimChars s.toList
  if t.isEmpty then some 0
  else match parseDecimal t with
    | some (q, []) => some q
    | _ => none

/-- ES `ToNumber`, restricted to the shapes the evaluator feeds it
(`isNaN` and the relational operators).  Arrays convert through their
single element as JavaScript converts through `toString`; multi-element
arrays and objects convert to `NaN`. -/
def jsToNumber : JSValue → Option ℚ
  | .null => some 0
  | .undefined => none
  | .bool b => some (if b then 1 else 0)
  | .num q => q
  | .str s => strToNumber s
  | .arr [] => some 0
  | .arr [v] => jsToNumber v
  | .arr (_ :: _ :: _) => none
  | .obj _ => none

/-- Decimal rendering of a rational for JavaScript string coercion;
integers render exactly, non-integers fall back to `num/den` form (the
evaluator's claims never coerce a non-integral number to a string). -/
def ratToString (q : ℚ) : String :=
  if q.den = 1 then toString q.num
  else toString q.num ++ "/" ++ toString q.den

mutual

/-- JavaScript `String(v)` over the modelled universe. -/
def jsToString : JSValue → String
  | .null => "null"
  | .undefined => "undefined"
  | .bool b => if b then "true" else "false"
  | .num none => "NaN"
  | .num (some q) => ratToString q
  | .str s => s
  | .arr xs => jsToStringList xs
  | .obj _ => "[object Object]"

/-- `Array.prototype.toString`: comma-joined elements, with `null` and
`undefined` elements rendering as the empty string. -/
def jsToStringList : List JSValue → String
  | [] => ""
  | [v] => jsToStringElem v
  | v :: rest => jsToStringElem v ++ "," ++ jsToStringList rest

/-- One array element under `Array.prototype.join`. -/
def jsToStringElem : JSValue → String
  | .null => ""
  | .undefined => ""
  | v => jsToString v

end

/-- JavaScript strict equality `===` on the modelled universe; distinct
array/object literals are never identical, `NaN === NaN` is false. -/
def jsStrictEq : JSValue → JSValue → Bool
  | .null, .null => true
  | .undefined, .undefined => true
  | .bool a, .bool b => a == b
  | .num (some a), .num (some b) => a == b
  | .str a, .str b => a == b
  | _, _ => false

/-- `SameValueZero`, the comparison used by `Array.prototype.includes`:
like `===` except that `NaN` equals `NaN`. -/
def jsSameValueZero : JSValue → JSValue → Bool
  | .num none, .num none => true
  | a, b => jsStrictEq a b

/-- JavaScript truthiness over the modelled universe. -/
def jsTruthy : JSValue → Bool
  | .null => false
  | .undefined => false
  | .bool b => b
  | .num none => false
  | .num (some q) => q ≠ 0
  | .str s => s ≠ ""
  | .arr _ => true
  | .obj _ => true

/-- The abstract relational comparison `a < b`: string–string compares
lexicographically, anything else through `ToNumber` with `NaN` making the
comparison false. -/
def jsLt (a b : JSValue) : Bool :=
  match a, b with
  | .str s, .str t => s < t
  | _, _ =>
    match jsToNumber a, jsToNumber b with
    | some x, some y => x < y
    | _, _ => false

/-- JavaScript `a <= b` (false when either side converts to `NaN`). -/
def jsLe (a b : JSValue) : Bool :=
  match a, b with
  | .str s, .str t => s ≤ t
  | _, _ =>
    match jsToNumber a, jsToNumber b with
    | some x, some y => x ≤ y
    | _, _ => false

/-- Substring containment, `String.prototype.includes`. -/
def strContains (s pat : String) : Bool :=
  (s.toList.tails).any (fun t => pat.toList.isPrefixOf t)

namespace ConditionEvaluator

/-- The operator table built in the `ConditionEvaluator` constructor
(src/remediation/escalation.js, lines 367–379).  `rx pat subj` is the
host regular-expression engine (`new RegExp(pat).test(subj)`); `none`
models a constructor throw on an invalid pattern, which the `regex`
operator propagates as an exception (`.error`).  An operator name absent
from the table is the `none` result, which every evaluator turns into
`false` (`if (!opFunc) return false`). -/
def applyOp (rx : String → String → Option Bool) (op : String)
    (a b : JSValue) : Option (Except Unit Bool) :=
  match op with
  | "eq" => some (.ok (jsStrictEq a b))
  | "ne" => some (.ok (!jsStrictEq a b))
  | "gt" => some (.ok (jsLt b a))
  | "gte" => some (.ok (jsLe b a))
  | "lt" => some (.ok (jsLt a b))
  | "lte" => some (.ok (jsLe a b))
  | "contains" => some (.ok (strContains (jsToString a) (jsToString b)))
  | "notContains" => some (.ok (!strContains (jsToString a) (jsToString b)))
  | "regex" =>
    some (match rx (jsToString b) (jsToString a) with
      | some r => .ok r
      | none => .error ())
  | "in" =>
    some (.ok (match b with
      | .arr xs => xs.any (fun x => jsSameValueZero x a)
      | _ => false))
  | "notIn" =>
    some (.ok (match b with
      | .arr xs => !xs.any (fun x => jsSameValueZero x a)
      | _ => false))
  | _ => none

/-- A condition definition.  The JavaScript object carries whichever of
these properties the author supplied; a missing `type` is modelled by
`""` (both `undefined` and `""` fail the `!condition.type` guard). -/
inductive JSCondition where
  | mk : (type : String) → (operator : Option String) →
      (field : Option String) → (value : JSValue) → (exitCode : JSValue) →
      (pattern : Option String) → (matchType : Option String) →
      (caseSensitive : JSValue) → (path : Option String) →
      (logic : Option String) → (conditions : List JSCondition) → JSCondition

/-- The `type` property of a condition. -/
def JSCondition.type : JSCondition → String
  | .mk t _ _ _ _ _ _ _ _ _ _ => t

/-- The `operator` property of a condition. -/
def JSCondition.operator : JSCondition → Option String
  | .mk _ o _ _ _ _ _ _ _ _ _ => o

/-- The `field` property of a condition. -/
def JSCondition.field : JSCondition → Option String
  | .mk _ _ f _ _ _ _ _ _ _ _ => f

/-- The `value` property of a condition. -/
def JSCondition.value : JSCondition → JSValue
  | .mk _ _ _ v _ _ _ _ _ _ _ => v

/-- The `exitCode` property of a condition. -/
def JSCondition.exitCode : JSCondition → JSValue
  | .mk _ _ _ _ e _ _ _ _ _ _ => e

/-- The `pattern` property of a condition. -/
def JSCondition.pattern : JSCondition → Option String
  | .mk _ _ _ _ _ p _ _ _ _ _ => p

/-- The `matchType` property of a condition. -/
def JSCondition.matchType : JSCondition → Option String
  | .mk _ _ _ _ _ _ m _ _ _ _ => m

/-- The `caseSensitive` property of a condition (compared with
`!== false`). -/
def JSCondition.caseSensitive : JSCondition → JSValue
  | .mk _ _ _ _ _ _ _ c _ _ _ => c

/-- The `path` property of a condition. -/
def JSCondition.path : JSCondition → Option String
  | .mk _ _ _ _ _ _ _ _ p _ _ => p

/-- The `logic` property of a condition. -/
def JSCondition.logic : JSCondition → Option String
  | .mk _ _ _ _ _ _ _ _ _ l _ => l

/-- The `conditions` property of a composite condition. -/
def JSCondition.conditions : JSCondition → List JSCondition
  | .mk _ _ _ _ _ _ _ _ _ _ cs => cs

/-- A `threshold` condition, as the specification's examples write them. -/
def thresholdCond (field : String) (op : String) (v : JSValue) : JSCondition :=
  .mk "threshold" (some op) (some field) v .undefined none none (.bool true)
    none none []

/-- `name[idx]` path segments: the effect of matching
`/（\w+)\[(\d+)\]/` against a part that contains `[` — a nonempty run of
word characters immediately before the first `[`, a nonempty digit run,
and a closing `]`. -/
def parseIndexPart (part : String) : Option (String × Nat) :=
  let cs := part.toList
  let pre := cs.takeWhile (fun c => c ≠ '[')
  let post := cs.dropWhile (fun c => c ≠ '[')
  match post with
  | '[' :: afterBracket =>
    let name := (pre.reverse.takeWhile (fun c => c.isAlphanum ∨ c = '_')).reverse
    let digits := afterBracket.takeWhile Char.isDigit
    let rest := afterBracket.dropWhile Char.isDigit
    if name.isEmpty ∨ digits.isEmpty then none
    else match rest with
      | ']' :: _ => some (String.mk name, digitsVal digits)
      | _ => none
  | _ => none

/-- One iteration of `ConditionEvaluator.extractField`'s `for` loop over
the dot-separated parts (src/remediation/escalation.js, lines 576–604).
Hitting `null` or `undefined` before the parts are exhausted returns the
JavaScript literal `null`. -/
def extractFieldGo : JSValue → List String → JSValue
  | current, [] => current
  | current, part :: rest =>
    match current with
    | .null => .null
    | .undefined => .null  -- `current == null` also matches `undefined`
    | _ =>
      let next :=
        if part.toList.contains '[' then
          match parseIndexPart part with
          | some (arrayName, index) =>
            let inner := getProp current arrayName
            match inner with
            | .arr xs => xs.getD index .undefined
            | v => v  -- `if (Array.isArray(current))` fails: keep the field value
          | none => getProp current part
        else getProp current part
      extractFieldGo next rest

/-- `path.split('.')` over the character list (the split is total: a
path with no dot yields the single-part list). -/
def splitDots (cs : List Char) : List String :=
  match cs with
  | [] => [""]
  | c :: rest =>
    match splitDots rest with
    | [] => [""]  -- unreachable: splitDots is never empty
    | part :: parts =>
      if c = '.' then "" :: part :: parts
      else (String.mk (c :: part.toList)) :: parts

/-- `ConditionEvaluator.extractField`: `if (!path) return obj`, then walk
the dot-separated parts. -/
def extractField (objV : JSValue) (path : Option String) : JSValue :=
  match path with
  | none => objV
  | some p => if p = "" then objV else extractFieldGo objV (splitDots p.toList)

/-- `ConditionEvaluator.evaluateExitCode` (src/remediation/escalation.js,
lines 426–437), as an exception-transparent computation. -/
def evaluateExitCode (rx : String → String → Option Bool)
    (c : JSCondition) (jobResult : JSValue) : Except Unit Bool :=
  let exitCode :=
    match getProp jobResult "exitCode" with
    | .undefined => JSValue.null
    | v => v
  let expected := c.exitCode
  let operator := jsOrS c.operator "eq"
  match exitCode with
  | .null => .ok false
  | ec =>
    match applyOp rx operator ec expected with
    | none => .ok false
    | some r => r

/-- `ConditionEvaluator.evaluateOutputPattern`
(src/remediation/escalation.js, lines 445–485).  `.error` marks the
places where the JavaScript would throw (string methods invoked on
non-strings or on `undefined`), to be caught by `evaluate`'s handler;
the `regex` branch has its own local catch and yields `false` on an
invalid pattern. -/
def evaluateOutputPattern (rx : String → String → Option Bool)
    (c : JSCondition) (jobResult : JSValue) : Except Unit Bool :=
  let output :=
    if jsTruthy (getProp jobResult "output") then getProp jobResult "output"
    else if jsTruthy (getProp jobResult "stdout") then getProp jobResult "stdout"
    else JSValue.str ""
  let matchType := jsOrS c.matchType "contains"
  let caseSensitive := !jsStrictEq c.caseSensitive (.bool false)
  -- `searchText.toLowerCase()` / `searchPattern.toLowerCase()` throw unless
  -- both are strings
  let lowered : Except Unit (JSValue × Option String) :=
    if caseSensitive then .ok (output, c.pattern)
    else match output, c.pattern with
      | .str s, some p => .ok (.str s.toLower, some p.toLower)
      | _, _ => .error ()
  match lowered with
  | .error _ => .error ()
  | .ok (searchText, searchPattern) =>
    -- `includes`/`startsWith`/`endsWith` coerce their argument, so an
    -- `undefined` pattern searches for the text "undefined"
    let patStr := match searchPattern with
      | some p => p
      | none => "undefined"
    match matchType with
    | "contains" =>
      match searchText with
      | .str s => .ok (strContains s patStr)
      | _ => .error ()
    | "notContains" =>
      match searchText with
      | .str s => .ok (!strContains s patStr)
      | _ => .error ()
    | "regex" =>
      -- local try/catch: an invalid pattern yields false; the test runs
      -- against the original (unlowered) output
      .ok (match rx patStr (jsToString output) with
        | some r => r
        | none => false)
    | "startsWith" =>
      match searchText with
      | .str s => .ok (s.startsWith patStr)
      | _ => .error ()
    | "endsWith" =>
      match searchText with
      | .str s => .ok (s.endsWith patStr)
      | _ => .error ()
    | _ => .ok false

/-- `ConditionEvaluator.evaluateThreshold` (src/remediation/escalation.js,
lines 493–512): extract the field, `parseFloat` a string value, reject
`NaN` via the coercing global `isNaN`, then compare. -/
def evaluateThreshold (rx : String → String → Option Bool)
    (c : JSCondition) (jobResult : JSValue) : Except Unit Bool :=
  let operator := jsOrS c.operator "gt"
  let threshold := c.value
  let extracted := extractField jobResult c.field
  let actualValue :=
    match extracted with
    | .str s => JSValue.num (parseFloatJS s)
    | v => v
  if (jsToNumber actualValue).isNone then .ok false
  else
    match applyOp rx operator actualValue threshold with
    | none => .ok false
    | some r => r

/-- `ConditionEvaluator.evaluateJsonPath` (src/remediation/escalation.js,
lines 520–543).  `jsonParse` is the host `JSON.parse`; `none` is a parse
failure, handled by the source's local catch (fall back to
`{output: jobResult.output}`). -/
def evaluateJsonPath (rx : String → String → Option Bool)
    (jsonParse : String → Option JSValue) (c : JSCondition)
    (jobResult : JSValue) : Except Unit Bool :=
  let operator := jsOrS c.operator "eq"
  let expected := c.value
  let data :=
    match getProp jobResult "output" with
    | .str s =>
      match jsonParse s with
      | some parsed => parsed
      | none => JSValue.obj [("output", .str s)]
    | _ => jobResult
  let actualValue := extractField data c.path
  match applyOp rx operator actualValue expected with
  | none => .ok false
  | some r => r

mutual

/-- `ConditionEvaluator.evaluate` (src/remediation/escalation.js, lines
388–418) together with `evaluateComposite` (lines 551–568), which is
inlined into the `composite` dispatch branch so that the recursion
through nested conditions is structural: dispatch on `condition.type`;
unknown types return `false`; the surrounding try/catch turns any
exception into `false`; `and`/`or` short-circuit over the nested
conditions like `every`/`some`, and `not` negates the first nested
condition (`conditions[0]`; with no nested condition
`evaluate(undefined)` is `false`, so `not` yields `true`). -/
def evaluate (rx : String → String → Option Bool)
    (jsonParse : String → Option JSValue) :
    JSCondition → JSValue → Bool
  | .mk ty op fld v ec patt mt cs pth logic conds, jobResult =>
    let c := JSCondition.mk ty op fld v ec patt mt cs pth logic conds
    if ty = "" then false  -- `!condition || !condition.type`
    else
      let inner : Except Unit Bool :=
        if ty = "exitCode" then evaluateExitCode rx c jobResult
        else if ty = "outputPattern" then evaluateOutputPattern rx c jobResult
        else if ty = "threshold" then evaluateThreshold rx c jobResult
        else if ty = "jsonPath" then evaluateJsonPath rx jsonParse c jobResult
        else if ty = "composite" then
          let lg := jsOrS logic "and"
          if lg = "and" then .ok (evalAll rx jsonParse conds jobResult)
          else if lg = "or" then .ok (evalAny rx jsonParse conds jobResult)
          else if lg = "not" then
            .ok (!(match conds with
              | [] => false
              | c0 :: _ => evaluate rx jsonParse c0 jobResult))
          else .ok false
        else .ok false
      match inner with
      | .ok b => b
      | .error _ => false

/-- `conditions.every(c => this.evaluate(c, jobResult))`. -/
def evalAll (rx : String → String → Option Bool)
    (jsonParse : String → Option JSValue) :
    List JSCondition → JSValue → Bool
  | [], _ => true
  | c :: rest, jobResult =>
    evaluate rx jsonParse c jobResult && evalAll rx jsonParse rest jobResult

/-- `conditions.some(c => this.evaluate(c, jobResult))`. -/
def evalAny (rx : String → String → Option Bool)
    (jsonParse : String → Option JSValue) :
    List JSCondition → JSValue → Bool
  | [], _ => false
  | c :: rest, jobResult =>
    evaluate rx jsonParse c jobResult || evalAny rx jsonParse rest jobResult

end

end ConditionEvaluator


/-! ## Maintenance windows (`src/scheduler/maintenance-windows.js`) -/

/-- A maintenance-window record (`type: 'maintenance_window'`). -/
structure MWindow where
  name : String := ""
  cronExpression : String := ""
  timezone : String := "UTC"
  duration : Int := 3600
  allowedPriorities : Option (List String) := none
  enabled : Bool := true
deriving Repr

/-- The result of `MaintenanceWindows.canJobRun`. -/
structure CanRunResult where
  allowed : Bool
  reason : String
deriving Repr, DecidableEq

namespace MaintenanceWindows

/-- `MaintenanceWindows.isInMaintenanceWindow`
(src/scheduler/maintenance-windows.js, lines 88–112).  `prevFire w` is the
croner call `new Cron(w.cronExpression, {timezone: w.timezone}).previous()`
— the most recent fire instant of the window's cron expression, in
epoch milliseconds, evaluated in the window's timezone; `.error` models a
throwing construction (caught here, yielding `false`), `.ok none` a cron
with no previous fire.  `now` is the wall clock, used only when the
passed `timestamp` is falsy (`timestamp || nowInTz.timestamp`). -/
def isInMaintenanceWindow (prevFire : MWindow → Except Unit (Option Int))
    (w : MWindow) (timestamp now : Int) : Bool :=
  let checkTime := if timestamp = 0 then now else timestamp
  match prevFire w with
  | .error _ => false
  | .ok none => false
  | .ok (some prevRunTime) =>
    let windowEnd := prevRunTime + w.duration * 1000
    decide (checkTime ≥ prevRunTime ∧ checkTime ≤ windowEnd)

/-- `MaintenanceWindows.getMaintenanceWindows`
(src/scheduler/maintenance-windows.js, lines 68–80): the database find
with its own catch, which returns `[]` on error. -/
def getMaintenanceWindows (lookup : Except Unit (List MWindow)) :
    List MWindow :=
  match lookup with
  | .error _ => []
  | .ok windows => windows

/-- The `for (const window of windows)` loop of `canJobRun`: disabled
windows are skipped, and the first window containing the timestamp
decides (exempt priority → allowed, otherwise blocked). -/
def canJobRunLoop (prevFire : MWindow → Except Unit (Option Int))
    (priority : String) (timestamp now : Int) :
    List MWindow → CanRunResult
  | [] => ⟨true, "Not in any maintenance window"⟩
  | w :: rest =>
    if ¬ w.enabled then canJobRunLoop prevFire priority timestamp now rest
    else if isInMaintenanceWindow prevFire w timestamp now then
      -- `window.allowedPriorities && window.allowedPriorities.includes(...)`
      if (match w.allowedPriorities with
          | some ps => ps.contains priority
          | none => false) then
        ⟨true, "Priority " ++ priority ++
          " is allowed during maintenance window " ++ w.name⟩
      else
        ⟨false, "Blocked by maintenance window " ++ w.name⟩
    else canJobRunLoop prevFire priority timestamp now rest

/-- `MaintenanceWindows.canJobRun` (src/scheduler/maintenance-windows.js,
lines 25–61).  `lookup` is the window fetch (whose own catch makes a
throwing fetch look like no windows); `maintenanceWindowIds` and
`priority` are the schedule fields consulted.  The source's outer catch
(fail open) is unreachable in this model because every fallible call
already handles its errors, exactly as in the source. -/
def canJobRun (lookup : Except Unit (List MWindow))
    (prevFire : MWindow → Except Unit (Option Int))
    (maintenanceWindowIds : List String) (priority : String)
    (timestamp now : Int) : CanRunResult :=
  if maintenanceWindowIds.isEmpty then
    ⟨true, "No maintenance windows defined"⟩
  else
    canJobRunLoop prevFire priority timestamp now
      (getMaintenanceWindows lookup)

end MaintenanceWindows

/-! ## Workflow builder (`WorkflowBuilder`, src/unnamed/part_003) -/

/-- A workflow step definition.  Optional fields are the properties a
workflow author may omit; `id`/`type` use `""` for the falsy missing
case. -/
structure Step where
  id : String := ""
  type : String := ""
  name : Option String := none
  timeout : Option Int := none
  scriptId : Option String := none
  script : Option String := none
  url : Option String := none
  method : Option String := none
  «to» : Option String := none
  subject : Option String := none
  body : Option String := none
  template : Option String := none
  duration : Option Int := none
  condition : Option ConditionEvaluator.JSCondition := none
  onSuccess : Option String := none
  onFailure : Option String := none
  onTrue : Option String := none
  onFalse : Option String := none
  priority : Option String := none
  rollbackScriptId : Option String := none
  retryPolicy : Option RetryPolicy := none

/-- A workflow definition (`type: 'remediation_workflow'`). -/
structure Workflow where
  name : String := ""
  enabled : Bool := true
  startStep : Option String := none
  steps : Option (List Step) := none
  rollbackEnabled : Bool := false
  escalationEnabled : Bool := false
  escalationPolicyId : Option String := none

namespace WorkflowBuilder

/-- The valid step types (`this.stepTypes`). -/
def stepTypes : List String := ["script", "webhook", "email", "delay", "condition"]

/-- `WorkflowBuilder.validateStep` and the per-type validators
(src/unnamed/part_003, lines 92–208), as the list of errors pushed for
one step.  `urlOk` is the host `new URL(u)` constructor: `false` when it
throws.  A missing `id` or `type` returns early with just that error. -/
def validateStepErrors (urlOk : String → Bool) (step : Step) : List String :=
  if step.id = "" then ["Step must have an id"]
  else if step.type = "" then ["Step " ++ step.id ++ ": must have a type"]
  else
    (if ¬ stepTypes.contains step.type then
      ["Step " ++ step.id ++ ": invalid type \"" ++ step.type ++
        "\". Must be one of: " ++ String.intercalate ", " stepTypes]
    else []) ++
    (match step.timeout with
      | some t => if t ≤ 0 then
          ["Step " ++ step.id ++ ": timeout must be a positive number"]
        else []
      | none => []) ++
    (match step.type with
      | "script" =>
        if ¬ truthyS step.scriptId ∧ ¬ truthyS step.script then
          ["Step " ++ step.id ++ ": script step must have scriptId or script defined"]
        else []
      | "webhook" =>
        (if ¬ truthyS step.url then
          ["Step " ++ step.id ++ ": webhook step must have url defined"]
        else if ¬ urlOk (step.url.getD "") then
          ["Step " ++ step.id ++ ": invalid webhook URL \"" ++
            step.url.getD "" ++ "\""]
        else []) ++
        (if truthyS step.method ∧
            ¬ ["GET", "POST", "PUT", "PATCH", "DELETE"].contains (step.method.getD "") then
          ["Step " ++ step.id ++ ": invalid HTTP method \"" ++
            step.method.getD "" ++ "\""]
        else [])
      | "email" =>
        (if ¬ truthyS step.«to» then
          ["Step " ++ step.id ++ ": email step must have to field defined"]
        else []) ++
        (if ¬ truthyS step.subject then
          ["Step " ++ step.id ++ ": email step must have subject defined"]
        else []) ++
        (if ¬ truthyS step.body ∧ ¬ truthyS step.template then
          ["Step " ++ step.id ++ ": email step must have body or template defined"]
        else [])
      | "delay" =>
        match step.duration with
        | none => ["Step " ++ step.id ++ ": delay step must have duration defined"]
        | some d =>
          if d = 0 then ["Step " ++ step.id ++ ": delay step must have duration defined"]
          else if d ≤ 0 then
            ["Step " ++ step.id ++ ": delay duration must be a positive number"]
          else []
      | "condition" =>
        (if step.condition.isNone then
          ["Step " ++ step.id ++ ": condition step must have condition defined"]
        else []) ++
        (if ¬ truthyS step.onTrue ∧ ¬ truthyS step.onFalse then
          ["Step " ++ step.id ++ ": condition step must have at least onTrue or onFalse defined"]
        else [])
      | _ => [])

/-- The dangling-transition errors of `validateWorkflow` (lines 48–55):
only `onSuccess`/`onFailure` targets are checked against the id list. -/
def danglingErrors (stepIds : List String) (step : Step) : List String :=
  (match truthyTarget step.onSuccess with
    | some t => if ¬ stepIds.contains t then
        ["Step " ++ step.id ++ ": onSuccess references non-existent step " ++ t]
      else []
    | none => []) ++
  (match truthyTarget step.onFailure with
    | some t => if ¬ stepIds.contains t then
        ["Step " ++ step.id ++ ": onFailure references non-existent step " ++ t]
      else []
    | none => [])

/-- The successors a step contributes to the cycle search, in the order
`detectCycle` explores them: `onSuccess`, `onFailure`, and for condition
steps also `onTrue`, `onFalse` — each only when truthy. -/
def stepSuccessors (step : Step) : List String :=
  ((truthyTarget step.onSuccess).toList ++ (truthyTarget step.onFailure).toList) ++
    (if step.type = "condition" then
      (truthyTarget step.onTrue).toList ++ (truthyTarget step.onFalse).toList
    else [])

/-- `stepMap.get`, where the map was filled by insertion over the steps
list (`stepMap.set(step.id, step)`): the LAST occurrence of a duplicated
id wins. -/
def stepMapFind (steps : List Step) (stepId : String) : Option Step :=
  steps.foldl (fun acc s => if s.id == stepId then some s else acc) none

/-- The mutable state of the `detectCycle` closure: the `visited` and
`recursionStack` sets (insertion-ordered lists of distinct ids) and the
collected error messages. -/
structure DfsState where
  visited : List String
  stack : List String
  errors : List String
deriving Repr

/-- `detectCycle` (src/unnamed/part_003, lines 224–264).  The recursion
is bounded by `fuel`; every actual run gives it more fuel than the
recursion can consume (each nesting level adds one distinct id to
`visited`, see `checkCircularDependencies`), so the `0` case is never
reached with work pending.  A falsy step id returns at once (`if
(!stepId) return false`); an id on the recursion stack records a
circular-dependency error and returns without recursing; a visited id
returns; otherwise the id joins `visited` and the stack, the guarded
sequential recursive calls on `onSuccess`, `onFailure` (and `onTrue`,
`onFalse` for condition steps) run in order — written here as a fold
over `stepSuccessors`, which lists exactly the truthy targets in that
order — and the id finally leaves the stack. -/
def detectCycle (steps : List Step) :
    Nat → String → List String → DfsState → DfsState
  | 0, _, _, st => st
  | fuel + 1, stepId, path, st =>
    if stepId = "" then st
    else if st.stack.contains stepId then
      { st with errors := st.errors ++
          ["Circular dependency detected: " ++
            String.intercalate " -> " (path ++ [stepId])] }
    else if st.visited.contains stepId then st
    else
      let st1 : DfsState :=
        { st with visited := st.visited ++ [stepId],
                  stack := st.stack ++ [stepId] }
      let st2 : DfsState :=
        match stepMapFind steps stepId with
        | none => st1
        | some step =>
          (stepSuccessors step).foldl
            (fun acc tgt => detectCycle steps fuel tgt (path ++ [stepId]) acc)
            st1
      { st2 with stack := st2.stack.filter (fun x => x ≠ stepId) }

/-- The root loop of `checkCircularDependencies` (lines 272–276): every
still-unvisited step id seeds another search, catching disconnected
components. -/
def detectCycleRoots (steps : List Step) (fuel : Nat) :
    List Step → DfsState → DfsState
  | [], st => st
  | step :: rest, st =>
    let st1 :=
      if st.visited.contains step.id then st
      else detectCycle steps fuel step.id [] st
    detectCycleRoots steps fuel rest st1

/-- An upper bound on every id the search can ever visit: the start step,
the step ids, and all transition targets.  The recursion nesting adds one
distinct such id to `visited` per level, so `length + 1` fuel suffices. -/
def dfsUniverse (startStep : Option String) (steps : List Step) : List String :=
  ((truthyTarget startStep).toList ++ steps.map Step.id ++
    (steps.map stepSuccessors).flatten).dedup

/-- `WorkflowBuilder.checkCircularDependencies` (src/unnamed/part_003,
lines 214–279): a depth-first search with a recursion stack, run from
`startStep` (when truthy) and then from every still-unvisited step. -/
def checkCircularDependencies (startStep : Option String)
    (steps : List Step) : Bool × List String :=
  let fuel := (dfsUniverse startStep steps).length + 1
  let st0 : DfsState := ⟨[], [], []⟩
  let st1 :=
    match truthyTarget startStep with
    | some s => detectCycle steps fuel s [] st0
    | none => st0
  let st2 := detectCycleRoots steps fuel steps st1
  (st2.errors.isEmpty, st2.errors)

/-- `WorkflowBuilder.validateWorkflow` (src/unnamed/part_003, lines
21–86): collect unique-id, per-step, dangling-transition, start-step and
circular-dependency errors (the missing-end-step case is only a console
warning).  Returns `(valid, errors)`. -/
def validateWorkflow (urlOk : String → Bool) (wf : Workflow) :
    Bool × List String :=
  match wf.steps with
  | none => (false, ["Workflow must have a steps array"])
  | some steps =>
    if steps.isEmpty then (false, ["Workflow must have at least one step"])
    else
      let stepIds := steps.map Step.id
      let uniqueErrors :=
        if stepIds.dedup.length ≠ stepIds.length then
          ["All step IDs must be unique"]
        else []
      let stepErrors := (steps.map (validateStepErrors urlOk)).flatten
      let transitionErrors := (steps.map (danglingErrors stepIds)).flatten
      let startErrors :=
        match truthyTarget wf.startStep with
        | none => ["Workflow must have a startStep defined"]
        | some s =>
          if ¬ stepIds.contains s then
            ["startStep " ++ s ++ " does not exist in steps"]
          else []
      let circularErrors := (checkCircularDependencies wf.startStep steps).2
      let errors := uniqueErrors ++ stepErrors ++ transitionErrors ++
        startErrors ++ circularErrors
      (errors.isEmpty, errors)

end WorkflowBuilder


/-! ## Remediation engine (`src/remediation/engine.js`) and rollback
(`ActionHandler.performRollback`, `src/remediation/actions.js`)

The persistence collaborator is modelled as an explicit store of the three
record kinds these operations touch: workflow definitions (keyed by their
string id), execution records and job records.  `updateOne` updates the
first record matching its filter, `insertOne` appends.  In-memory state
(the active-execution map, step timers, the quarantine set) carries no
claim of this development and is noted where the source manipulates it. -/

/-- A remediation execution record (`type: 'remediation_execution'`),
restricted to the fields these operations read or write. -/
structure ExecRec where
  execId : Nat  -- `_id`
  workflowId : String
  workflowName : String := ""
  nodeId : String
  status : String
  currentStep : Option String := none
  stepResults : List StepResultRec := []
  startTime : Int := 0
  endTime : Option Int := none
  duration : Option ℚ := none
  completionReason : Option String := none
  completedAt : Option Int := none
deriving Repr

/-- A job record as created by the rollback path, restricted to the
fields written there. -/
structure JobRec where
  scriptId : String
  node : String
  state : String
  queueTime : Int
  priority : String
  remediationExecutionId : Option Nat := none
  tags : List String := []
  originalStepId : Option String := none
deriving Repr, DecidableEq

/-- The persisted state visible to the engine operations. -/
structure DBState where
  workflows : List (String × Workflow)
  executions : List ExecRec
  jobs : List JobRec

/-- `updateOne`: apply `f` to the first record satisfying `p`. -/
def updateFirst (p : α → Bool) (f : α → α) : List α → List α
  | [] => []
  | x :: xs => if p x then f x :: xs else x :: updateFirst p f xs

/-- `findOne({_id: formatId(workflowId), type: 'remediation_workflow'})`. -/
def findWorkflow (db : DBState) (workflowId : String) : Option Workflow :=
  (db.workflows.find? (fun w => w.1 == workflowId)).map (fun w => w.2)

/-- `findOne({_id, type: 'remediation_execution'})`. -/
def findExecution (db : DBState) (execId : Nat) : Option ExecRec :=
  db.executions.find? (fun e => e.execId == execId)

namespace ActionHandler

/-- The reverse scan of `performRollback` (src/remediation/actions.js,
lines 276–288): walk `stepResults` from the last to the first, keeping
`(step.id, step.rollbackScriptId)` for every successful result whose step
declares a truthy `rollbackScriptId`. -/
def collectRollbackSteps (steps : List Step)
    (stepResults : List StepResultRec) : List (String × String) :=
  stepResults.reverse.foldl (fun acc r =>
    if r.status == "success" then
      match steps.find? (fun s => s.id == r.stepId) with
      | some s =>
        if truthyS s.rollbackScriptId then
          acc ++ [(s.id, s.rollbackScriptId.getD "")]
        else acc
      | none => acc
    else acc) []

/-- The job record queued for one rollback step (src/remediation/actions.js,
lines 291–309). -/
def mkRollbackJob (ex : ExecRec) (rollbackStep : String × String)
    (now : Int) : JobRec :=
  { scriptId := rollbackStep.2
    node := ex.nodeId
    state := "pending"
    queueTime := now / 1000  -- `Math.floor(Date.now() / 1000)`
    priority := "high"
    remediationExecutionId := some ex.execId
    tags := ["rollback", "remediation"]
    originalStepId := some rollbackStep.1 }

/-- `ActionHandler.performRollback` (src/remediation/actions.js, lines
253–323): reload the execution and its workflow, refuse unless
`rollbackEnabled`, queue one job per collected rollback step (in the
reverse order of completion) and set the execution's status to
`rolled_back`.  A workflow without a `steps` array makes
`workflow.steps.find` throw — but only when the reverse scan reaches a
step result with status `success`; the throw happens before any write,
so the method's catch returns with the store unchanged.  With no
successful step result the scan completes empty and the status update
still runs. -/
def performRollback (db : DBState) (executionId : Nat) (now : Int) : DBState :=
  match findExecution db executionId with
  | none => db
  | some execution =>
    match findWorkflow db execution.workflowId with
    | none => db
    | some workflow =>
      if ¬ workflow.rollbackEnabled then db
      else
        match workflow.steps with
        | none =>
          if execution.stepResults.any (fun r => r.status == "success") then
            db  -- `workflow.steps.find` throws; caught before any write
          else
            let updated := updateFirst (fun e => e.execId == executionId)
              (fun e => { e with status := "rolled_back",
                                 completedAt := some now })
              db.executions
            { db with executions := updated }
        | some steps =>
          let rollbackSteps := collectRollbackSteps steps execution.stepResults
          let newJobs := rollbackSteps.map (fun rb => mkRollbackJob execution rb now)
          let db1 := { db with jobs := db.jobs ++ newJobs }
          let updated := updateFirst (fun e => e.execId == executionId)
            (fun e => { e with status := "rolled_back", completedAt := some now })
            db1.executions
          { db1 with executions := updated }

end ActionHandler

namespace RemediationEngine

/-- `RemediationEngine.completeExecution` (src/remediation/engine.js,
lines 629–678): persist the terminal status, end time, duration and
reason; drop the in-memory active entry and timers (no persisted effect);
and, only when the status is `failed` and the workflow exists with
`rollbackEnabled`, perform the rollback. -/
def completeExecution (db : DBState) (execution : ExecRec) (status : String)
    (reason : Option String) (now : Int) : DBState :=
  let duration : ℚ := ((now : ℚ) - (execution.startTime : ℚ)) / 1000
  let updated := updateFirst (fun e => e.execId == execution.execId)
    (fun e => { e with status := status, endTime := some now,
                       duration := some duration, completionReason := reason })
    db.executions
  let db1 := { db with executions := updated }
  if status == "failed" then
    match findWorkflow db1 execution.workflowId with
    | some workflow =>
      if workflow.rollbackEnabled then
        ActionHandler.performRollback db1 execution.execId now
      else db1
    | none => db1
  else db1

/-- The recovery loop of the engine's startup method
(src/remediation/engine.js, lines 49–59; the source names it
`RemediationEngine.initialize`): every execution persisted with status
`running` is completed as `failed` with the interruption reason; none is
resumed.  (The quarantine reload in the same method touches only
in-memory state.) -/
def initializeEngine (db : DBState) (now : Int) : DBState :=
  let inProgress := db.executions.filter (fun e => e.status == "running")
  inProgress.foldl (fun d execution =>
    completeExecution d execution "failed"
      (some "Engine restart - execution interrupted") now) db

/-- The execution record created by `triggerWorkflow`
(src/remediation/engine.js, lines 116–130). -/
def newExecution (workflowId : String) (workflow : Workflow)
    (nodeId : String) (newId : Nat) (now : Int) : ExecRec :=
  { execId := newId
    workflowId := workflowId
    workflowName := workflow.name
    nodeId := nodeId
    status := "running"
    currentStep := workflow.startStep
    stepResults := []
    startTime := now }

/-- `RemediationEngine.triggerWorkflow` (src/remediation/engine.js, lines
76–151): load the workflow (absent or disabled → throw); if a `running`
execution already exists for the same workflow and node, return it
unchanged ("idempotently instead of starting a duplicate"); otherwise
validate the workflow (invalid → throw) and insert a fresh `running`
execution.  The asynchronous advancement the source then launches is
outside the returned value.  `newId` is the id the insert would assign. -/
def triggerWorkflow (db : DBState) (urlOk : String → Bool)
    (workflowId nodeId : String) (newId : Nat) (now : Int) :
    Except String (ExecRec × DBState) :=
  match findWorkflow db workflowId with
  | none => .error ("Workflow " ++ workflowId ++ " not found")
  | some workflow =>
    if ¬ workflow.enabled then
      .error ("Workflow " ++ workflowId ++ " is disabled")
    else
      match db.executions.find? (fun e =>
          e.workflowId == workflowId && e.nodeId == nodeId &&
            e.status == "running") with
      | some existing => .ok (existing, db)
      | none =>
        let validation := WorkflowBuilder.validateWorkflow urlOk workflow
        if ¬ validation.1 then
          .error ("Workflow validation failed: " ++
            String.intercalate ", " validation.2)
        else
          let execution := newExecution workflowId workflow nodeId newId now
          .ok (execution, { db with executions := db.executions ++ [execution] })

end RemediationEngine


/-! ## Property language

Definitions used only to state the verified properties: the transition
graph of a workflow, cycles in it, and the jobs a rollback is specified
to queue. -/

namespace WorkflowBuilder

/-- The transition-graph edge relation the cycle search walks: `u` is the
id of a step (under the last-wins step map) and `v` one of its truthy
transition targets. -/
def Edge (steps : List Step) (u v : String) : Prop :=
  ∃ step, stepMapFind steps u = some step ∧ v ∈ stepSuccessors step

/-- The workflow's transition graph has a cycle: some id reaches itself
along one or more edges. -/
def HasCycle (steps : List Step) : Prop :=
  ∃ u, Relation.TransGen (Edge steps) u u

end WorkflowBuilder

/-- The jobs a rollback queues, as the specification describes them: in
reverse completion order, one corrective job per successfully completed
step result whose step declares a truthy `rollbackScriptId`, targeting
the execution's node. -/
def rollbackJobsSpec (steps : List Step) (ex : ExecRec) (now : Int) :
    List JobRec :=
  ex.stepResults.reverse.filterMap (fun r =>
    if r.status == "success" then
      (steps.find? (fun s => s.id == r.stepId)).bind (fun s =>
        if truthyS s.rollbackScriptId then
          some (ActionHandler.mkRollbackJob ex
            (s.id, s.rollbackScriptId.getD "") now)
        else none)
    else none)


namespace WorkflowBuilder

/-- One search state extends another: `visited` and `errors` only ever
grow by appending. -/
def Extends (st st2 : DfsState) : Prop :=
  (∃ t, st2.visited = st.visited ++ t) ∧ (∃ t, st2.errors = st.errors ++ t)

/-- An acyclicity certificate for a search state: the finished ("black")
nodes — visited and off the recursion stack — listed so that every
transition edge out of a black node lands on an earlier black node.
A state satisfying `Cert` with an empty stack and full coverage has a
topological ranking, hence no cycle among its nodes. -/
def Cert (steps : List Step) (st : DfsState) : Prop :=
  ∃ black : List String,
    (∀ x, x ∈ black ↔ (x ∈ st.visited ∧ x ∉ st.stack)) ∧
    (∀ u ∈ black, ∀ v, Edge steps u v →
      v ∈ black ∧ black.indexOf v < black.indexOf u)

end WorkflowBuilder

/-- The steps of the cyclic two-step workflow of the specification's
example: `A.onSuccess = B`, `B.onSuccess = A`. -/
def wfCycleSteps : List Step :=
  [{ id := "A", type := "script", scriptId := some "s1",
     onSuccess := some "B" },
   { id := "B", type := "script", scriptId := some "s2",
     onSuccess := some "A" }]

/-- The cyclic two-step workflow built from `wfCycleSteps`. -/
def wfCycle : Workflow :=
  { name := "cyclic", startStep := some "A", steps := some wfCycleSteps }

/-- The acyclic chain of the specification's example:
`A.onSuccess = B`, `B.onSuccess = C`. -/
def wfChain : Workflow :=
  { name := "chain", startStep := some "A",
    steps := some
      [{ id := "A", type := "script", scriptId := some "s1",
         onSuccess := some "B" },
       { id := "B", type := "script", scriptId := some "s2",
         onSuccess := some "C" },
       { id := "C", type := "script", scriptId := some "s3" }] }

/-- A workflow whose cycle `A ↔ B` is not reachable from its start step
`S`: only the root loop over still-unvisited steps can catch it. -/
def wfDisc : Workflow :=
  { name := "disconnected", startStep := some "S",
    steps := some
      [{ id := "S", type := "script", scriptId := some "s0" },
       { id := "A", type := "script", scriptId := some "s1",
         onSuccess := some "B" },
       { id := "B", type := "script", scriptId := some "s2",
         onSuccess := some "A" }] }

/-- Append the selected element, the accumulator shape of
`performRollback`'s reverse scan. -/
def appendSelected {α β : Type _} (g : α → Option β) (acc : List β) (x : α) :
    List β :=
  match g x with
  | some b => acc ++ [b]
  | none => acc

/-! ## Theorems -/

/-- C10: `getPriorityValue` returns 1 for `high` and 3 for `low`, but
returns 2 (the `normal` weight) for `critical` as well as for `normal`
and every unknown priority, because the looked-up `0` is falsy and is
replaced by the default via `|| 2`; consequently `queueScheduleForLater`
orders a queued `critical` schedule with the same weight as a queued
`normal` one. -/
theorem c10_priority_value :
    AdvancedScheduler.getPriorityValue "high" = 1 ∧
    AdvancedScheduler.getPriorityValue "low" = 3 ∧
    AdvancedScheduler.getPriorityValue "critical" = 2 ∧
    AdvancedScheduler.getPriorityValue "normal" = 2 ∧
    (∀ p : String, p ≠ "critical" → p ≠ "high" → p ≠ "normal" → p ≠ "low" →
      AdvancedScheduler.getPriorityValue p = 2) ∧
    AdvancedScheduler.queueScheduleForLaterPriority "critical" =
      AdvancedScheduler.queueScheduleForLaterPriority "normal" := by
  refine ⟨by decide, by decide, by decide, by decide, ?_, by decide⟩
  intro p h1 h2 h3 h4
  simp [AdvancedScheduler.getPriorityValue, h1, h2, h3, h4, jsOrI]

/-- C10 witness: the universal conjunct of `c10_priority_value` at the
unknown priority `"urgent"`. -/
theorem c10_priority_value_witness :
    AdvancedScheduler.getPriorityValue "urgent" = 2 :=
  c10_priority_value.2.2.2.2.1 "urgent" (by decide) (by decide) (by decide)
    (by decide)

/-- C7: for a retry policy with (truthy) base delay `b` and a recorded
retry count `n` below the attempt ceiling, the computed retry delay is
`min (b * 2 ^ n) 3600` for exponential backoff and `min (b * (n + 1))
3600` for linear backoff; exponential backoff with `delaySeconds = 60` at
attempt 2 yields 240, and at attempt 10 (ceiling 20) the delay is capped
at 3600. -/
theorem c7_backoff_delay (ma : Option Int) (b : Int) (n : Nat)
    (hb : b ≠ 0) (hn : (n : Int) < jsOrI ma 3) :
    (EscalationManager.handleStepFailure
        [{ stepId := "s", status := "failed", retryCount := some n }] "s"
        (some { maxAttempts := ma, backoffType := some "exponential",
                delaySeconds := some b })) =
      ⟨true, min (b * 2 ^ n) 3600⟩ ∧
    (EscalationManager.handleStepFailure
        [{ stepId := "s", status := "failed", retryCount := some n }] "s"
        (some { maxAttempts := ma, backoffType := some "linear",
                delaySeconds := some b })) =
      ⟨true, min (b * ((n : Int) + 1)) 3600⟩ ∧
    (EscalationManager.handleStepFailure
        [{ stepId := "s", status := "failed", retryCount := some 2 }] "s"
        (some { backoffType := some "exponential", delaySeconds := some 60 })) =
      ⟨true, 240⟩ ∧
    (EscalationManager.handleStepFailure
        [{ stepId := "s", status := "failed", retryCount := some 10 }] "s"
        (some { maxAttempts := some 20, backoffType := some "exponential",
                delaySeconds := some 60 })) =
      ⟨true, 3600⟩ := by
  have hn' := not_le.mpr hn
  simp only [jsOrI] at hn'
  refine ⟨?_, ?_, by decide, by decide⟩ <;>
    simp [EscalationManager.handleStepFailure, jsOrI, jsOrS, hb, hn']

/-- C7 witness: `c7_backoff_delay` at the default ceiling, base delay 60
and attempt 2 (the specification's own example). -/
theorem c7_backoff_delay_witness :
    (EscalationManager.handleStepFailure
        [{ stepId := "s", status := "failed", retryCount := some 2 }] "s"
        (some { maxAttempts := none, backoffType := some "exponential",
                delaySeconds := some 60 })) =
      ⟨true, min (60 * 2 ^ 2) 3600⟩ :=
  (c7_backoff_delay none 60 2 (by decide) (by decide)).1

/-- C2 counterexample: `checkDependencies` does not fail open — a
dependency lookup that raises makes it report the dependencies as NOT
satisfied (`false`), where the claim asserts it reports them satisfied. -/
theorem c2_checkDependencies_error_counterexample :
    AdvancedScheduler.checkDependencies (fun _ => .error ()) ["dep1"]
      (some 100) = false := by
  rfl

/-- C2 (amended): on a lookup error, `checkConcurrencyLimits` fails open
(returns `true`) and `canJobRun` fails open (reports the run allowed),
but `checkDependencies` fails closed: a raising dependency lookup makes
it report the dependencies unsatisfied (`false`), like condition
evaluation. -/
theorem c2_gate_error_policy :
    (∀ (meshOf : String → Option String) (mc : Option Int)
        (conc : Option Concurrency) (nodeId : String),
      AdvancedScheduler.checkConcurrencyLimits (.error ()) meshOf mc conc
        nodeId = true) ∧
    (∀ (prevFire : MWindow → Except Unit (Option Int))
        (mwIds : List String) (priority : String) (ts now : Int),
      (MaintenanceWindows.canJobRun (.error ()) prevFire mwIds priority ts
        now).allowed = true) ∧
    (∀ (lookup : String → Except Unit (Option AdvancedScheduler.DepSched))
        (depId : String) (rest : List String) (lastRun : Option Int),
      lookup depId = .error () →
      AdvancedScheduler.checkDependencies lookup (depId :: rest) lastRun
        = false) := by
  refine ⟨fun _ _ _ _ => rfl, ?_, ?_⟩
  · intro prevFire mwIds priority ts now
    by_cases h : mwIds.isEmpty <;>
      simp [MaintenanceWindows.canJobRun, MaintenanceWindows.canJobRunLoop,
        MaintenanceWindows.getMaintenanceWindows, h]
  · intro lookup depId rest lastRun h
    simp [AdvancedScheduler.checkDependencies, h]

/-- C2 witness: `c2_gate_error_policy` at concrete gates — an erroring
job lookup admits the node, an erroring window lookup allows the run,
and an erroring dependency lookup blocks. -/
theorem c2_gate_error_policy_witness :
    AdvancedScheduler.checkConcurrencyLimits (.error ()) (fun _ => none)
      none none "node1" = true ∧
    (MaintenanceWindows.canJobRun (.error ()) (fun _ => .ok none) ["w1"]
      "normal" 1000 1000).allowed = true ∧
    AdvancedScheduler.checkDependencies (fun _ => .error ()) ["dep1", "dep2"]
      none = false :=
  ⟨c2_gate_error_policy.1 (fun _ => none) none none "node1",
   c2_gate_error_policy.2.1 (fun _ => .ok none) ["w1"] "normal" 1000 1000,
   c2_gate_error_policy.2.2 (fun _ => .error ()) "dep1" ["dep2"] none rfl⟩

/-- C1: the retry loop does NOT terminate at the policy's attempt
ceiling.  The engine never writes the incremented retry count back into
`execution.stepResults` (the local `retryCount` of engine.js line 600 is
discarded), so for a step whose every attempt fails and which has no
recorded result — the normal case, since results are recorded only after
`executeStep` returns — the escalation manager reads retry count 0 on
every iteration and always answers `shouldRetry`: the loop never reaches
a final result, for any bound on the number of attempts.  (With the
default policy the decision is retry-with-60s-delay every time.) -/
theorem c1_retry_loop_never_terminates :
    (∀ fuel attempt : Nat,
      RemediationEngine.retryLoop (fun _ => true) [] "fix" none fuel attempt
        = none) ∧
    EscalationManager.handleStepFailure [] "fix" none =
      ⟨true, 60⟩ := by
  refine ⟨?_, by decide⟩
  intro fuel
  induction fuel with
  | zero => intro _; rfl
  | succ k ih =>
    intro attempt
    simpa [RemediationEngine.retryLoop,
      show EscalationManager.handleStepFailure [] "fix" none = ⟨true, 60⟩
        from by decide] using ih (attempt + 1)

/-- C8 counterexample: a threshold condition whose field extraction FAILS
(the path `a.b` dead-ends at `null`, so `extractField` returns the
JavaScript `null`) does not evaluate to `false`: `isNaN(null)` is false
(`Number(null) = 0`), and `null >= 0` coerces to `0 >= 0`, so the
evaluator returns `true`. -/
theorem c8_extraction_null_counterexample :
    ConditionEvaluator.extractField (.obj [("a", .null)]) (some "a.b")
      = .null ∧
    ConditionEvaluator.evaluate (fun _ _ => none) (fun _ => none)
      (ConditionEvaluator.thresholdCond "a.b" "gte" (.num (some 0)))
      (.obj [("a", .null)]) = true := by
  refine ⟨rfl, ?_⟩
  rw [ConditionEvaluator.thresholdCond, ConditionEvaluator.evaluate.eq_def]
  decide

/-- C8 (amended): the condition evaluator is a total function that fails
closed for unknown types — every condition whose `type` is not one of
the five known kinds evaluates to `false` — and a threshold whose
extraction yields `undefined` (a missing field) or a non-numeric string
evaluates to `false`; the specification's examples hold
(`diskUsage gt 90` is `true` against `{diskUsage: 95}` and `false`
against `{diskUsage: "not-a-number"}`).  However, an extraction that
dead-ends at a `null` value escapes the `isNaN` guard (`Number(null)`
is `0`), so such a "failed" extraction can still satisfy a comparison
(see the counterexample). -/
theorem c8_fail_closed_amended :
    (∀ (rx : String → String → Option Bool)
        (jp : String → Option JSValue)
        (c : ConditionEvaluator.JSCondition) (r : JSValue),
      c.type ∉ ["exitCode", "outputPattern", "threshold", "jsonPath",
        "composite"] →
      ConditionEvaluator.evaluate rx jp c r = false) ∧
    (∀ (rx : String → String → Option Bool)
        (jp : String → Option JSValue) (fld op : String) (v : JSValue)
        (r : JSValue),
      ConditionEvaluator.extractField r (some fld) = .undefined →
      ConditionEvaluator.evaluate rx jp
        (ConditionEvaluator.thresholdCond fld op v) r = false) ∧
    ConditionEvaluator.evaluate (fun _ _ => none) (fun _ => none)
      (ConditionEvaluator.thresholdCond "diskUsage" "gt" (.num (some 90)))
      (.obj [("diskUsage", .num (some 95))]) = true ∧
    ConditionEvaluator.evaluate (fun _ _ => none) (fun _ => none)
      (ConditionEvaluator.thresholdCond "diskUsage" "gt" (.num (some 90)))
      (.obj [("diskUsage", .str "not-a-number")]) = false := by
  refine ⟨?_, ?_, ?_, ?_⟩
  · intro rx jp c r h
    obtain ⟨ty, op, fld, v, ec, patt, mt, cs0, pth, lg, conds⟩ := c
    simp only [ConditionEvaluator.JSCondition.type, List.mem_cons,
      List.mem_singleton, not_or] at h
    rw [ConditionEvaluator.evaluate.eq_def]
    simp only [if_neg h.1, if_neg h.2.1, if_neg h.2.2.1, if_neg h.2.2.2.1,
      if_neg h.2.2.2.2.1]
    by_cases hty : ty = "" <;> simp [hty]
  · intro rx jp fld op v r h
    rw [ConditionEvaluator.thresholdCond, ConditionEvaluator.evaluate.eq_def]
    simp [ConditionEvaluator.evaluateThreshold,
      ConditionEvaluator.JSCondition.field, h, jsToNumber]
  · rw [ConditionEvaluator.thresholdCond, ConditionEvaluator.evaluate.eq_def]
    decide
  · rw [ConditionEvaluator.thresholdCond, ConditionEvaluator.evaluate.eq_def]
    decide

/-- C8 witness: `c8_fail_closed_amended` at an unknown condition type and
at a missing field. -/
theorem c8_fail_closed_amended_witness :
    ConditionEvaluator.evaluate (fun _ _ => none) (fun _ => none)
      (ConditionEvaluator.JSCondition.mk "mystery" none none .undefined .undefined
        none none (.bool true) none none []) (.obj []) = false ∧
    ConditionEvaluator.evaluate (fun _ _ => none) (fun _ => none)
      (ConditionEvaluator.thresholdCond "missing" "gt" (.num (some 1)))
      (.obj []) = false :=
  ⟨c8_fail_closed_amended.1 (fun _ _ => none) (fun _ => none)
      (ConditionEvaluator.JSCondition.mk "mystery" none none .undefined .undefined
        none none (.bool true) none none []) (.obj []) (by decide),
   c8_fail_closed_amended.2.1 (fun _ _ => none) (fun _ => none) "missing"
      "gt" (.num (some 1)) (.obj []) rfl⟩


/-- C5: for an enabled maintenance window whose cron's most recent fire
at or before the (truthy) queried timestamp is `lws` — the value the
croner `previous()` call reports, modelled by `prevFire` —
`isInMaintenanceWindow` holds iff the timestamp lies in the closed
interval `[lws, lws + duration]` (duration in seconds against epoch
milliseconds); and for the window `0 2 * * *`, duration 7200, UTC
(whose last fire at 02:30 UTC on 2024-01-01 is 02:00, epoch ms
1704074400000), a schedule with priority `critical` ∈
`allowedPriorities = ["critical"]` queried at 02:30 UTC is allowed while
priority `normal` is blocked. -/
theorem c5_maintenance_window_membership
    (prevFire : MWindow → Except Unit (Option Int)) (w : MWindow)
    (ts now lws : Int) (hw : prevFire w = .ok (some lws)) (hts : ts ≠ 0) :
    (MaintenanceWindows.isInMaintenanceWindow prevFire w ts now = true ↔
      lws ≤ ts ∧ ts ≤ lws + w.duration * 1000) ∧
    (MaintenanceWindows.canJobRun
      (.ok [{ name := "nightly", cronExpression := "0 2 * * *",
              timezone := "UTC", duration := 7200,
              allowedPriorities := some ["critical"], enabled := true }])
      (fun _ => .ok (some 1704074400000)) ["w1"] "critical"
      1704076200000 1704076200000).allowed = true ∧
    (MaintenanceWindows.canJobRun
      (.ok [{ name := "nightly", cronExpression := "0 2 * * *",
              timezone := "UTC", duration := 7200,
              allowedPriorities := some ["critical"], enabled := true }])
      (fun _ => .ok (some 1704074400000)) ["w1"] "normal"
      1704076200000 1704076200000).allowed = false := by
  refine ⟨?_, by decide, by decide⟩
  simp only [MaintenanceWindows.isInMaintenanceWindow, hw, if_neg hts,
    decide_eq_true_eq, ge_iff_le]

/-- C5 witness: `c5_maintenance_window_membership` instantiated at the
specification's example window and timestamps. -/
theorem c5_maintenance_window_membership_witness :
    MaintenanceWindows.isInMaintenanceWindow
      (fun _ => .ok (some 1704074400000))
      { name := "nightly", cronExpression := "0 2 * * *", timezone := "UTC",
        duration := 7200, allowedPriorities := some ["critical"],
        enabled := true } 1704076200000 1704076200000 = true :=
  ((c5_maintenance_window_membership (fun _ => .ok (some 1704074400000))
      { name := "nightly", cronExpression := "0 2 * * *", timezone := "UTC",
        duration := 7200, allowedPriorities := some ["critical"],
        enabled := true } 1704076200000 1704076200000 1704074400000 rfl
      (by decide)).1).mpr (by decide)

/-- `find?` returns the member `a` when `a` satisfies the predicate and
is the only member doing so. -/
theorem find?_eq_of_mem_of_unique {α : Type _} (p : α → Bool) {l : List α}
    {a : α} (ha : a ∈ l) (hpa : p a = true)
    (huniq : ∀ b ∈ l, p b = true → b = a) : l.find? p = some a := by
  induction l with
  | nil => cases ha
  | cons x xs ih =>
    by_cases hx : p x = true
    · have hxa : x = a := huniq x (List.mem_cons_self x xs) hx
      subst hxa
      simp [List.find?, hx]
    · have hax : a ∈ xs := by
        rcases List.mem_cons.mp ha with h | h
        · exact absurd (h ▸ hpa) hx
        · exact h
      have : xs.find? p = some a :=
        ih hax (fun b hb hpb => huniq b (List.mem_cons_of_mem x hb) hpb)
      simpa [List.find?_cons, hx]

/-- C4: `triggerWorkflow` is idempotent while an execution is in flight —
when the workflow exists and is enabled and a `running` execution for the
same workflow+node pair exists (and is the only one), a further call
returns exactly that execution and leaves the store unchanged: no second
execution is created. -/
theorem c4_trigger_idempotent (db : DBState) (urlOk : String → Bool)
    (wid nid : String) (newId : Nat) (now : Int) (wf : Workflow)
    (ex : ExecRec) (hwf : findWorkflow db wid = some wf)
    (hen : wf.enabled = true) (hmem : ex ∈ db.executions)
    (hw : ex.workflowId = wid) (hn : ex.nodeId = nid)
    (hs : ex.status = "running")
    (huniq : ∀ e ∈ db.executions, e.workflowId = wid → e.nodeId = nid →
      e.status = "running" → e = ex) :
    RemediationEngine.triggerWorkflow db urlOk wid nid newId now
      = .ok (ex, db) := by
  have hfind : db.executions.find? (fun e =>
      e.workflowId == wid && e.nodeId == nid && e.status == "running")
      = some ex := by
    apply find?_eq_of_mem_of_unique _ hmem
    · simp [hw, hn, hs]
    · intro b hb hpb
      simp only [Bool.and_eq_true, beq_iff_eq] at hpb
      exact huniq b hb hpb.1.1 hpb.1.2 hpb.2
  simp [RemediationEngine.triggerWorkflow, hwf, hen, hfind]

/-- C4 witness: `c4_trigger_idempotent` on a one-execution store. -/
theorem c4_trigger_idempotent_witness :
    RemediationEngine.triggerWorkflow
      { workflows := [("wf1", { name := "w", enabled := true })],
        executions := [{ execId := 1, workflowId := "wf1", nodeId := "n1",
                         status := "running" }],
        jobs := [] } (fun _ => true) "wf1" "n1" 2 900
      = .ok ({ execId := 1, workflowId := "wf1", nodeId := "n1",
               status := "running" },
             { workflows := [("wf1", { name := "w", enabled := true })],
               executions := [{ execId := 1, workflowId := "wf1",
                                nodeId := "n1", status := "running" }],
               jobs := [] }) :=
  c4_trigger_idempotent _ _ _ _ _ _ _ _ rfl rfl
    (List.mem_singleton.mpr rfl) rfl rfl rfl
    (fun _ he _ _ _ => List.mem_singleton.mp he)


/-- `updateFirst` rewrites the record `find?` locates (when the rewritten
record still satisfies the predicate). -/
theorem updateFirst_find?_self {α : Type _} (p : α → Bool) (f : α → α)
    {l : List α} {x : α} (h : l.find? p = some x) (hf : p (f x) = true) :
    (updateFirst p f l).find? p = some (f x) := by
  induction l with
  | nil => simp [List.find?] at h
  | cons y ys ih =>
    by_cases hy : p y = true
    · rw [List.find?_cons_of_pos _ hy] at h
      injection h with h
      subst h
      simp [updateFirst, hy, List.find?_cons_of_pos _ hf]
    · rw [List.find?_cons_of_neg _ (by simpa using hy)] at h
      simp only [updateFirst, if_neg hy]
      rw [List.find?_cons_of_neg _ (by simpa using hy)]
      exact ih h

/-- `updateFirst` on one `execId` leaves lookups of other ids unchanged,
as long as the rewrite preserves the id. -/
theorem updateFirst_findExecution_frame (f : ExecRec → ExecRec)
    (hf : ∀ e, (f e).execId = e.execId) (j i : Nat) (l : List ExecRec)
    (hij : i ≠ j) :
    (updateFirst (fun e => e.execId == j) f l).find?
        (fun e => e.execId == i) =
      l.find? (fun e => e.execId == i) := by
  induction l with
  | nil => rfl
  | cons y ys ih =>
    by_cases hy : y.execId = j
    · have h1 : (fun e => e.execId == j) y = true := by simpa using hy
      have h2 : (f y).execId = i ↔ False := by
        rw [hf y, hy]; exact iff_of_false (fun h => hij h.symm) id
      have h3 : (y.execId = i) ↔ False := by
        rw [hy]; exact iff_of_false (fun h => hij h.symm) id
      simp only [updateFirst, if_pos h1]
      rw [List.find?_cons_of_neg _ (by simp [h2]),
        List.find?_cons_of_neg _ (by simp [h3])]
    · have h1 : ¬ ((fun e => e.execId == j) y = true) := by simpa using hy
      simp only [updateFirst, if_neg h1]
      by_cases hyi : y.execId = i
      · rw [List.find?_cons_of_pos _ (by simpa using hyi),
          List.find?_cons_of_pos _ (by simpa using hyi)]
      · rw [List.find?_cons_of_neg _ (by simpa using hyi),
          List.find?_cons_of_neg _ (by simpa using hyi)]
        exact ih

/-- `updateFirst` preserves the id column when the rewrite does. -/
theorem updateFirst_map_execId (f : ExecRec → ExecRec)
    (hf : ∀ e, (f e).execId = e.execId) (j : Nat) (l : List ExecRec) :
    (updateFirst (fun e => e.execId == j) f l).map ExecRec.execId =
      l.map ExecRec.execId := by
  induction l with
  | nil => rfl
  | cons y ys ih =>
    by_cases hy : (fun e => e.execId == j) y = true
    · simp [updateFirst, hy, hf]
    · simp only [updateFirst, if_neg hy, List.map_cons, ih]

/-- Folding "append the selected element" is `filterMap`. -/
theorem foldl_append_filterMap {α β : Type _} (g : α → Option β)
    (l : List α) (acc : List β) :
    l.foldl (appendSelected g) acc = acc ++ l.filterMap g := by
  induction l generalizing acc with
  | nil => simp
  | cons x xs ih =>
    rw [List.foldl_cons, List.filterMap_cons]
    cases hgx : g x with
    | none => simp [appendSelected, hgx, ih]
    | some b => simp [appendSelected, hgx, ih]

/-- The per-result selection of `performRollback`'s reverse scan. -/
def rollbackSelect (steps : List Step) (r : StepResultRec) :
    Option (String × String) :=
  if r.status == "success" then
    (steps.find? (fun s => s.id == r.stepId)).bind (fun s =>
      if truthyS s.rollbackScriptId then
        some (s.id, s.rollbackScriptId.getD "")
      else none)
  else none

/-- The fold at the heart of `collectRollbackSteps` is the filterMap of
its per-result selection. -/
theorem collectRollbackSteps_eq_filterMap (steps : List Step)
    (results : List StepResultRec) :
    ActionHandler.collectRollbackSteps steps results =
      results.reverse.filterMap (rollbackSelect steps) := by
  rw [ActionHandler.collectRollbackSteps]
  rw [show ∀ l : List StepResultRec, l.foldl (fun acc r =>
      if r.status == "success" then
        match steps.find? (fun s => s.id == r.stepId) with
        | some s =>
          if truthyS s.rollbackScriptId then
            acc ++ [(s.id, s.rollbackScriptId.getD "")]
          else acc
        | none => acc
      else acc) [] = l.foldl (appendSelected (rollbackSelect steps)) []
      from fun l => List.foldl_ext _ _ []
      (fun acc r _ => by
        rw [appendSelected, rollbackSelect.eq_def]
        by_cases hr : (r.status == "success") = true
        · rw [if_pos hr, if_pos hr]
          cases hfind : steps.find? (fun s => s.id == r.stepId) with
          | none => rfl
          | some st =>
            by_cases hrb : truthyS st.rollbackScriptId = true
            · simp [hrb]
            · simp [hrb]
        · rw [if_neg hr, if_neg hr])]
  have h := foldl_append_filterMap (rollbackSelect steps) results.reverse []
  rw [List.nil_append] at h
  exact h


/-- Workflow lookups ignore the execution column. -/
theorem findWorkflow_set_executions (db : DBState) (l : List ExecRec)
    (wid : String) :
    findWorkflow { db with executions := l } wid = findWorkflow db wid := rfl

/-- Workflow lookups ignore the job column. -/
theorem findWorkflow_set_jobs (db : DBState) (l : List JobRec)
    (wid : String) :
    findWorkflow { db with jobs := l } wid = findWorkflow db wid := rfl

/-- Execution lookups ignore the job column. -/
theorem findExecution_set_jobs (db : DBState) (l : List JobRec) (i : Nat) :
    findExecution { db with jobs := l } i = findExecution db i := rfl

/-- `performRollback`, on a store where the execution and its
rollback-enabled workflow (with a steps array) resolve: queue the mapped
rollback jobs and mark the execution rolled back. -/
theorem performRollback_spec (db : DBState) (i : Nat) (now : Int)
    (ex : ExecRec) (wf : Workflow) (steps : List Step)
    (hex : findExecution db i = some ex)
    (hwf : findWorkflow db ex.workflowId = some wf)
    (hrb : wf.rollbackEnabled = true) (hsteps : wf.steps = some steps) :
    ActionHandler.performRollback db i now =
      { workflows := db.workflows
        jobs := db.jobs ++
          (ActionHandler.collectRollbackSteps steps ex.stepResults).map
            (fun rb => ActionHandler.mkRollbackJob ex rb now)
        executions := updateFirst (fun e => e.execId == i)
          (fun e => { e with status := "rolled_back",
                             completedAt := some now }) db.executions } := by
  simp only [ActionHandler.performRollback, hex, hwf, hrb, hsteps,
    not_true, if_false]


/-- The specified rollback job list is exactly what the implementation's
reverse scan queues. -/
theorem rollbackJobsSpec_eq_collect (steps : List Step) (ex : ExecRec)
    (now : Int) :
    rollbackJobsSpec steps ex now =
      (ActionHandler.collectRollbackSteps steps ex.stepResults).map
        (fun rb => ActionHandler.mkRollbackJob ex rb now) := by
  rw [collectRollbackSteps_eq_filterMap, List.map_filterMap,
    rollbackJobsSpec]
  apply List.filterMap_congr
  intro r _
  rw [rollbackSelect]
  by_cases hr : (r.status == "success") = true
  · rw [if_pos hr, if_pos hr]
    cases hfind : steps.find? (fun s => s.id == r.stepId) with
    | none => rfl
    | some st =>
      by_cases hrb : truthyS st.rollbackScriptId = true
      · simp [hrb]
      · simp [hrb]
  · rw [if_neg hr, if_neg hr]
    rfl

/-- Every specified rollback job targets the execution's node, starts
`pending` and is queued `high`. -/
theorem rollbackJobsSpec_fields (steps : List Step) (ex : ExecRec)
    (now : Int) :
    ∀ j ∈ rollbackJobsSpec steps ex now,
      j.node = ex.nodeId ∧ j.state = "pending" ∧ j.priority = "high" := by
  intro j hj
  rw [rollbackJobsSpec] at hj
  obtain ⟨r, _, hsel⟩ := List.mem_filterMap.mp hj
  by_cases hr : (r.status == "success") = true
  · rw [if_pos hr] at hsel
    obtain ⟨st, _, hsel2⟩ := Option.bind_eq_some.mp hsel
    by_cases hrb : truthyS st.rollbackScriptId = true
    · rw [if_pos hrb] at hsel2
      injection hsel2 with hsel2
      subst hsel2
      exact ⟨rfl, rfl, rfl⟩
    · rw [if_neg hrb] at hsel2; cases hsel2
  · rw [if_neg hr] at hsel; cases hsel

/-- Rollback-job mapping depends only on the execution's step results,
node and id. -/
theorem collect_map_eq_spec (steps : List Step) (ex ex2 : ExecRec)
    (now : Int) (h1 : ex2.stepResults = ex.stepResults)
    (h2 : ex2.nodeId = ex.nodeId) (h3 : ex2.execId = ex.execId) :
    (ActionHandler.collectRollbackSteps steps ex2.stepResults).map
      (fun rb => ActionHandler.mkRollbackJob ex2 rb now) =
      rollbackJobsSpec steps ex now := by
  have hfn : (fun rb => ActionHandler.mkRollbackJob ex2 rb now) =
      (fun rb => ActionHandler.mkRollbackJob ex rb now) := by
    funext rb
    rw [ActionHandler.mkRollbackJob, ActionHandler.mkRollbackJob, h2, h3]
  rw [h1, hfn, ← rollbackJobsSpec_eq_collect]

/-- `completeExecution` with terminal status `failed` on a
rollback-enabled workflow: mark the record failed, queue the specified
rollback jobs, then mark it rolled back. -/
theorem completeExecution_failed_rollback_eq (db : DBState) (ex : ExecRec)
    (reason : Option String) (now : Int) (wf : Workflow)
    (steps : List Step)
    (hfind : findExecution db ex.execId = some ex)
    (hwf : findWorkflow db ex.workflowId = some wf)
    (hrb : wf.rollbackEnabled = true) (hsteps : wf.steps = some steps) :
    RemediationEngine.completeExecution db ex "failed" reason now =
      { workflows := db.workflows
        executions := updateFirst (fun e => e.execId == ex.execId)
          (fun e => { e with
                      status := "rolled_back", completedAt := some now })
          (updateFirst (fun e => e.execId == ex.execId)
            (fun e => { e with
                        status := "failed", endTime := some now,
                        duration :=
                          some (((now : ℚ) - (ex.startTime : ℚ)) / 1000),
                        completionReason := reason })
            db.executions)
        jobs := db.jobs ++ rollbackJobsSpec steps ex now } := by
  have hup : (updateFirst (fun e => e.execId == ex.execId)
      (fun e => { e with
                  status := "failed", endTime := some now,
                  duration := some (((now : ℚ) - (ex.startTime : ℚ)) / 1000),
                  completionReason := reason }) db.executions).find?
        (fun e => e.execId == ex.execId) =
      some { ex with
             status := "failed", endTime := some now,
             duration := some (((now : ℚ) - (ex.startTime : ℚ)) / 1000),
             completionReason := reason } :=
    updateFirst_find?_self _ _ hfind (by simp)
  simp only [RemediationEngine.completeExecution, beq_self_eq_true,
    if_true, findWorkflow_set_executions, hwf, hrb]
  rw [ActionHandler.performRollback]
  simp only [findExecution, hup, findWorkflow_set_executions, hwf, hrb,
    not_true, if_false, hsteps]
  rw [collect_map_eq_spec steps ex
    { ex with
      status := "failed", endTime := some now,
      duration := some (((now : ℚ) - (ex.startTime : ℚ)) / 1000),
      completionReason := reason } now rfl rfl rfl]

/-- Case analysis of `completeExecution`: the store effect and the final
record for every combination of terminal status, workflow lookup,
rollback flag, steps array and (for a steps-less workflow) presence of a
successful step result — the last one deciding whether the rollback scan
throws before its final status update. -/
theorem completeExecution_spec (db : DBState) (ex : ExecRec)
    (status : String) (reason : Option String) (now : Int)
    (hfind : findExecution db ex.execId = some ex) :
    (status ≠ "failed" →
      (RemediationEngine.completeExecution db ex status reason now).jobs
        = db.jobs ∧
      ∃ e, findExecution
          (RemediationEngine.completeExecution db ex status reason now)
          ex.execId = some e ∧ e.status = status ∧
          e.completionReason = reason) ∧
    (status = "failed" → findWorkflow db ex.workflowId = none →
      (RemediationEngine.completeExecution db ex status reason now).jobs
        = db.jobs ∧
      ∃ e, findExecution
          (RemediationEngine.completeExecution db ex status reason now)
          ex.execId = some e ∧ e.status = "failed" ∧
          e.completionReason = reason) ∧
    (∀ wf, status = "failed" → findWorkflow db ex.workflowId = some wf →
      wf.rollbackEnabled = false →
      (RemediationEngine.completeExecution db ex status reason now).jobs
        = db.jobs ∧
      ∃ e, findExecution
          (RemediationEngine.completeExecution db ex status reason now)
          ex.execId = some e ∧ e.status = "failed" ∧
          e.completionReason = reason) ∧
    (∀ wf, status = "failed" → findWorkflow db ex.workflowId = some wf →
      wf.rollbackEnabled = true → wf.steps = none →
      ex.stepResults.any (fun r => r.status == "success") = true →
      (RemediationEngine.completeExecution db ex status reason now).jobs
        = db.jobs ∧
      ∃ e, findExecution
          (RemediationEngine.completeExecution db ex status reason now)
          ex.execId = some e ∧ e.status = "failed" ∧
          e.completionReason = reason) ∧
    (∀ wf, status = "failed" → findWorkflow db ex.workflowId = some wf →
      wf.rollbackEnabled = true → wf.steps = none →
      ex.stepResults.any (fun r => r.status == "success") = false →
      (RemediationEngine.completeExecution db ex status reason now).jobs
        = db.jobs ∧
      ∃ e, findExecution
          (RemediationEngine.completeExecution db ex status reason now)
          ex.execId = some e ∧ e.status = "rolled_back" ∧
          e.completionReason = reason) ∧
    (∀ wf steps, status = "failed" →
      findWorkflow db ex.workflowId = some wf →
      wf.rollbackEnabled = true → wf.steps = some steps →
      (RemediationEngine.completeExecution db ex status reason now).jobs
        = db.jobs ++ rollbackJobsSpec steps ex now ∧
      ∃ e, findExecution
          (RemediationEngine.completeExecution db ex status reason now)
          ex.execId = some e ∧ e.status = "rolled_back" ∧
          e.completionReason = reason) := by
  have hup : (updateFirst (fun e => e.execId == ex.execId)
      (fun e => { e with
                  status := status, endTime := some now,
                  duration := some (((now : ℚ) - (ex.startTime : ℚ)) / 1000),
                  completionReason := reason }) db.executions).find?
        (fun e => e.execId == ex.execId) =
      some { ex with
             status := status, endTime := some now,
             duration := some (((now : ℚ) - (ex.startTime : ℚ)) / 1000),
             completionReason := reason } :=
    updateFirst_find?_self _ _ hfind (by simp)
  refine ⟨?_, ?_, ?_, ?_, ?_, ?_⟩
  · intro hst
    have hbeq : (status == "failed") = false := by
      simpa using hst
    simp only [RemediationEngine.completeExecution, hbeq, if_false,
      Bool.false_eq_true]
    exact ⟨trivial, _, hup, rfl, rfl⟩
  · intro hst hwf
    subst hst
    simp only [RemediationEngine.completeExecution, beq_self_eq_true,
      if_true, findWorkflow_set_executions, hwf]
    exact ⟨trivial, _, hup, rfl, rfl⟩
  · intro wf hst hwf hrb
    subst hst
    simp only [RemediationEngine.completeExecution, beq_self_eq_true,
      if_true, findWorkflow_set_executions, hwf, hrb, if_false,
      Bool.false_eq_true]
    exact ⟨trivial, _, hup, rfl, rfl⟩
  · intro wf hst hwf hrb hsteps hsucc
    subst hst
    simp only [RemediationEngine.completeExecution, beq_self_eq_true,
      if_true, findWorkflow_set_executions, hwf, hrb, if_true]
    rw [ActionHandler.performRollback]
    simp only [findExecution, hup, findWorkflow_set_executions, hwf, hrb,
      not_true, if_false, hsteps, hsucc, if_true]
    exact ⟨trivial, _, rfl, rfl, rfl⟩
  · intro wf hst hwf hrb hsteps hsucc
    subst hst
    simp only [RemediationEngine.completeExecution, beq_self_eq_true,
      if_true, findWorkflow_set_executions, hwf, hrb, if_true]
    rw [ActionHandler.performRollback]
    simp only [findExecution, hup, findWorkflow_set_executions, hwf, hrb,
      not_true, if_false, hsteps, hsucc, Bool.false_eq_true]
    exact ⟨trivial, _, updateFirst_find?_self _ _ hup (by simp), rfl, rfl⟩
  · intro wf steps hst hwf hrb hsteps
    subst hst
    rw [completeExecution_failed_rollback_eq db ex reason now wf steps
      hfind hwf hrb hsteps]
    refine ⟨rfl, ?_⟩
    exact ⟨_, updateFirst_find?_self _ _ hup (by simp), rfl, rfl⟩

/-- C9: `completeExecution` triggers rollback only when the terminal
status is `failed` and the workflow's `rollbackEnabled` is true (with a
steps array); rollback then queues, in reverse completion order, one
corrective job per successfully completed step result whose step
declares a `rollbackScriptId` (`rollbackJobsSpec`), each targeting the
execution's node, and finally sets the execution's status to
`rolled_back` (keeping the completion reason). -/
theorem c9_rollback_on_failure (db : DBState) (ex : ExecRec)
    (status : String) (reason : Option String) (now : Int)
    (hfind : findExecution db ex.execId = some ex) :
    (status ≠ "failed" →
      (RemediationEngine.completeExecution db ex status reason now).jobs
        = db.jobs ∧
      ∃ e, findExecution
          (RemediationEngine.completeExecution db ex status reason now)
          ex.execId = some e ∧ e.status = status) ∧
    (status = "failed" → findWorkflow db ex.workflowId = none →
      (RemediationEngine.completeExecution db ex status reason now).jobs
        = db.jobs ∧
      ∃ e, findExecution
          (RemediationEngine.completeExecution db ex status reason now)
          ex.execId = some e ∧ e.status = "failed") ∧
    (∀ wf, status = "failed" → findWorkflow db ex.workflowId = some wf →
      wf.rollbackEnabled = false →
      (RemediationEngine.completeExecution db ex status reason now).jobs
        = db.jobs ∧
      ∃ e, findExecution
          (RemediationEngine.completeExecution db ex status reason now)
          ex.execId = some e ∧ e.status = "failed") ∧
    (∀ wf steps, status = "failed" →
      findWorkflow db ex.workflowId = some wf →
      wf.rollbackEnabled = true → wf.steps = some steps →
      (RemediationEngine.completeExecution db ex status reason now).jobs
        = db.jobs ++ rollbackJobsSpec steps ex now ∧
      (∀ j ∈ rollbackJobsSpec steps ex now,
        j.node = ex.nodeId ∧ j.state = "pending" ∧ j.priority = "high") ∧
      ∃ e, findExecution
          (RemediationEngine.completeExecution db ex status reason now)
          ex.execId = some e ∧ e.status = "rolled_back" ∧
          e.completionReason = reason) := by
  obtain ⟨h1, h2, h3, _, _, h5⟩ :=
    completeExecution_spec db ex status reason now hfind
  refine ⟨?_, ?_, ?_, ?_⟩
  · intro hst
    obtain ⟨hj, e, he, hs, _⟩ := h1 hst
    exact ⟨hj, e, he, hs⟩
  · intro hst hwf
    obtain ⟨hj, e, he, hs, _⟩ := h2 hst hwf
    exact ⟨hj, e, he, hs⟩
  · intro wf hst hwf hrb
    obtain ⟨hj, e, he, hs, _⟩ := h3 wf hst hwf hrb
    exact ⟨hj, e, he, hs⟩
  · intro wf steps hst hwf hrb hsteps
    obtain ⟨hj, e, he, hs, hr⟩ := h5 wf steps hst hwf hrb hsteps
    exact ⟨hj, rollbackJobsSpec_fields steps ex now, e, he, hs, hr⟩


/-- Workflow lookup depends only on the workflow column. -/
theorem findWorkflow_eq_of_workflows {db1 db2 : DBState}
    (h : db1.workflows = db2.workflows) (wid : String) :
    findWorkflow db1 wid = findWorkflow db2 wid := by
  rw [findWorkflow, findWorkflow, h]

/-- `performRollback` never touches the workflow column. -/
theorem performRollback_workflows (db : DBState) (i : Nat) (now : Int) :
    (ActionHandler.performRollback db i now).workflows = db.workflows := by
  rw [ActionHandler.performRollback]
  split
  · rfl
  · split
    · rfl
    · split
      · rfl
      · split
        · split
          · rfl
          · rfl
        · rfl

/-- `performRollback` only rewrites the record with the given id. -/
theorem performRollback_frame (db : DBState) (i : Nat) (now : Int)
    (j : Nat) (hij : j ≠ i) :
    findExecution (ActionHandler.performRollback db i now) j =
      findExecution db j := by
  rw [ActionHandler.performRollback]
  split
  · rfl
  · split
    · rfl
    · split
      · rfl
      · split
        · split
          · rfl
          · exact updateFirst_findExecution_frame
              (fun e => { e with
                          status := "rolled_back", completedAt := some now })
              (fun _ => rfl) i j db.executions hij
        · exact updateFirst_findExecution_frame
            (fun e => { e with
                        status := "rolled_back", completedAt := some now })
            (fun _ => rfl) i j db.executions hij

/-- `completeExecution` never touches the workflow column. -/
theorem completeExecution_workflows (db : DBState) (ex : ExecRec)
    (status : String) (reason : Option String) (now : Int) :
    (RemediationEngine.completeExecution db ex status reason now).workflows
      = db.workflows := by
  rw [RemediationEngine.completeExecution]
  split
  · split
    · split
      · exact performRollback_workflows _ _ _
      · rfl
    · rfl
  · rfl

/-- `completeExecution` only rewrites the record with the execution's
id. -/
theorem completeExecution_frame (db : DBState) (ex : ExecRec)
    (status : String) (reason : Option String) (now : Int) (j : Nat)
    (hj : j ≠ ex.execId) :
    findExecution
        (RemediationEngine.completeExecution db ex status reason now) j =
      findExecution db j := by
  have hbase : findExecution
      { db with
        executions := updateFirst (fun e => e.execId == ex.execId)
          (fun e => { e with
                      status := status, endTime := some now,
                      duration :=
                        some (((now : ℚ) - (ex.startTime : ℚ)) / 1000),
                      completionReason := reason }) db.executions } j =
      findExecution db j :=
    updateFirst_findExecution_frame
      (fun e => { e with
                  status := status, endTime := some now,
                  duration := some (((now : ℚ) - (ex.startTime : ℚ)) / 1000),
                  completionReason := reason })
      (fun _ => rfl) ex.execId j db.executions hj
  rw [RemediationEngine.completeExecution]
  split
  · split
    · split
      · rw [performRollback_frame _ _ _ _ hj]
        exact hbase
      · exact hbase
    · exact hbase
  · exact hbase

/-- Folding `completeExecution` over a list of snapshot records leaves
other ids untouched. -/
theorem foldComplete_frame (reason : Option String) (now : Int) :
    ∀ (pending : List ExecRec) (d : DBState) (i : Nat),
      (∀ p ∈ pending, p.execId ≠ i) →
      findExecution (pending.foldl (fun dd exx =>
        RemediationEngine.completeExecution dd exx "failed" reason now) d) i
        = findExecution d i := by
  intro pending
  induction pending with
  | nil => intro d i _; rfl
  | cons p rest ih =>
    intro d i hni
    rw [List.foldl_cons]
    rw [ih _ i (fun q hq => hni q (List.mem_cons_of_mem p hq))]
    exact completeExecution_frame d p "failed" reason now i
      (Ne.symm (hni p (List.mem_cons_self p rest)))

/-- Folding `completeExecution` preserves the workflow column. -/
theorem foldComplete_workflows (reason : Option String) (now : Int) :
    ∀ (pending : List ExecRec) (d : DBState),
      (pending.foldl (fun dd exx =>
        RemediationEngine.completeExecution dd exx "failed" reason now)
        d).workflows = d.workflows := by
  intro pending
  induction pending with
  | nil => intro d; rfl
  | cons p rest ih =>
    intro d
    rw [List.foldl_cons, ih]
    exact completeExecution_workflows d p "failed" reason now

/-- The per-record outcome of the recovery fold: each pending `running`
record ends `failed` — or `rolled_back` exactly when its workflow exists
with `rollbackEnabled` and the rollback scan completes, i.e. the
workflow has a steps array or the record has no successful step
result — with the interruption reason. -/
theorem foldComplete_spec (reason : Option String) (now : Int) :
    ∀ (pending : List ExecRec) (d : DBState),
      (pending.map ExecRec.execId).Nodup →
      (∀ p ∈ pending, findExecution d p.execId = some p) →
      ∀ ex ∈ pending,
        ∃ e, findExecution (pending.foldl (fun dd exx =>
            RemediationEngine.completeExecution dd exx "failed" reason now)
            d) ex.execId = some e ∧
          e.completionReason = reason ∧
          (e.status = "failed" ∨ e.status = "rolled_back") ∧
          (e.status = "rolled_back" ↔
            ∃ wf, findWorkflow d ex.workflowId = some wf ∧
              wf.rollbackEnabled = true ∧
              (wf.steps ≠ none ∨
                ex.stepResults.any (fun r => r.status == "success")
                  = false)) := by
  intro pending
  induction pending with
  | nil => intro d _ _ ex hex; cases hex
  | cons p rest ih =>
    intro d hnodup hfinds ex hex
    have hpid : ∀ q ∈ rest, q.execId ≠ p.execId := by
      intro q hq
      have := (List.nodup_cons.mp hnodup).1
      intro hcontra
      exact this (hcontra ▸ List.mem_map_of_mem ExecRec.execId hq)
    rcases List.mem_cons.mp hex with hexp | hexr
    · -- ex is the head: complete it, then the rest leaves it alone
      subst hexp
      have hfp : findExecution d ex.execId = some ex :=
        hfinds ex (List.mem_cons_self ex rest)
      obtain ⟨h1, h2, h3, h4a, h4b, h5⟩ :=
        completeExecution_spec d ex "failed" reason now hfp
      rw [List.foldl_cons]
      rw [foldComplete_frame reason now rest _ ex.execId hpid]
      rcases hwf : findWorkflow d ex.workflowId with _ | wf
      · obtain ⟨-, e, he, hs, hr⟩ := h2 rfl hwf
        refine ⟨e, he, hr, Or.inl hs, ?_⟩
        rw [hs]
        constructor
        · intro hcontra; exact absurd hcontra (by decide)
        · rintro ⟨wf, hwf2, -⟩
          exact Option.noConfusion hwf2
      · by_cases hrb : wf.rollbackEnabled = true
        · rcases hsteps : wf.steps with _ | steps
          · by_cases hsucc : ex.stepResults.any
                (fun r => r.status == "success") = true
            · obtain ⟨-, e, he, hs, hr⟩ := h4a wf rfl hwf hrb hsteps hsucc
              refine ⟨e, he, hr, Or.inl hs, ?_⟩
              rw [hs]
              constructor
              · intro hcontra; exact absurd hcontra (by decide)
              · rintro ⟨wf2, hwf2, -, hdisj⟩
                injection hwf2 with hwf2
                subst hwf2
                rcases hdisj with hne | hfalse
                · exact absurd hsteps hne
                · exact Bool.noConfusion (hsucc.symm.trans hfalse)
            · have hsuccf : ex.stepResults.any
                  (fun r => r.status == "success") = false :=
                Bool.not_eq_true _ ▸ hsucc
              obtain ⟨-, e, he, hs, hr⟩ := h4b wf rfl hwf hrb hsteps hsuccf
              refine ⟨e, he, hr, Or.inr hs, ?_⟩
              rw [hs]
              exact iff_of_true rfl ⟨wf, rfl, hrb, Or.inr hsuccf⟩
          · obtain ⟨-, e, he, hs, hr⟩ := h5 wf steps rfl hwf hrb hsteps
            refine ⟨e, he, hr, Or.inr hs, ?_⟩
            rw [hs]
            exact iff_of_true rfl
              ⟨wf, rfl, hrb, Or.inl (by rw [hsteps]; simp)⟩
        · obtain ⟨-, e, he, hs, hr⟩ :=
            h3 wf rfl hwf (Bool.not_eq_true _ ▸ hrb)
          refine ⟨e, he, hr, Or.inl hs, ?_⟩
          rw [hs]
          constructor
          · intro hcontra; exact absurd hcontra (by decide)
          · rintro ⟨wf2, hwf2, hrb2, -⟩
            injection hwf2 with hwf2
            subst hwf2
            exact absurd hrb2 hrb
    · -- ex is in the tail
      rw [List.foldl_cons]
      have hrest := ih (RemediationEngine.completeExecution d p "failed"
          reason now) (List.nodup_cons.mp hnodup).2 ?_ ex hexr
      · obtain ⟨e, he, hr, hs, hiff⟩ := hrest
        rw [findWorkflow_eq_of_workflows
          (completeExecution_workflows d p "failed" reason now)
          ex.workflowId] at hiff
        exact ⟨e, he, hr, hs, hiff⟩
      · intro q hq
        rw [completeExecution_frame d p "failed" reason now q.execId
          (hpid q hq)]
        exact hfinds q (List.mem_cons_of_mem p hq)


/-- With distinct ids, looking up a member's id finds that member. -/
theorem findExecution_of_nodup (db : DBState) (ex : ExecRec)
    (hnodup : (db.executions.map ExecRec.execId).Nodup)
    (hex : ex ∈ db.executions) :
    findExecution db ex.execId = some ex := by
  apply find?_eq_of_mem_of_unique _ hex
  · simp
  · intro b hb hpb
    exact List.inj_on_of_nodup_map hnodup hb hex (by simpa using hpb)

/-- C3 counterexample: an execution persisted `running` whose workflow
has `rollbackEnabled` is observed after engine re-initialization with
status `rolled_back`, not `failed` — the interruption failure triggers
the rollback path, which overwrites the status (the completion reason
still mentions the interruption). -/
theorem c3_restart_recovery_counterexample :
    (RemediationEngine.initializeEngine
      { workflows := [("wf1",
          { name := "w", enabled := true, startStep := some "a",
            steps := some [], rollbackEnabled := true })],
        executions := [{ execId := 1, workflowId := "wf1", nodeId := "n1",
                         status := "running", startTime := 0 }],
        jobs := [] } 5000).executions.map
      (fun e => (e.status, e.completionReason))
      = [("rolled_back", some "Engine restart - execution interrupted")] :=
  rfl

/-- C3 (amended): every execution persisted with status `running` is,
after the engine's startup recovery, observed with `completionReason`
mentioning the interruption and is never resumed (its status is not
`running`): it ends `failed`, except that when its workflow exists with
`rollbackEnabled` and the rollback scan completes without throwing —
the workflow has a steps array, or the execution has no successful
step result — the triggered rollback overwrites the status to
`rolled_back`. -/
theorem c3_restart_recovery_amended (db : DBState) (now : Int)
    (ex : ExecRec) (hnodup : (db.executions.map ExecRec.execId).Nodup)
    (hex : ex ∈ db.executions) (hst : ex.status = "running") :
    ∃ e, findExecution (RemediationEngine.initializeEngine db now)
        ex.execId = some e ∧
      e.completionReason = some "Engine restart - execution interrupted" ∧
      e.status ≠ "running" ∧
      (e.status = "failed" ∨ e.status = "rolled_back") ∧
      (e.status = "rolled_back" ↔
        ∃ wf, findWorkflow db ex.workflowId = some wf ∧
          wf.rollbackEnabled = true ∧
          (wf.steps ≠ none ∨
            ex.stepResults.any (fun r => r.status == "success")
              = false)) := by
  have hmem : ex ∈ db.executions.filter (fun e => e.status == "running") :=
    List.mem_filter.mpr ⟨hex, by simp [hst]⟩
  have hsub : (db.executions.filter (fun e => e.status == "running")).map
      ExecRec.execId |>.Nodup :=
    List.Nodup.sublist
      (List.Sublist.map ExecRec.execId (List.filter_sublist _)) hnodup
  have hfinds : ∀ p ∈ db.executions.filter (fun e => e.status == "running"),
      findExecution db p.execId = some p := by
    intro p hp
    exact findExecution_of_nodup db p hnodup (List.mem_of_mem_filter hp)
  obtain ⟨e, he, hr, hs, hiff⟩ :=
    foldComplete_spec (some "Engine restart - execution interrupted") now
      (db.executions.filter (fun e => e.status == "running")) db hsub
      hfinds ex hmem
  refine ⟨e, he, hr, ?_, hs, hiff⟩
  rcases hs with hs | hs <;> rw [hs] <;> decide

/-- C3 witness: `c3_restart_recovery_amended` on a store holding one
`running` execution whose workflow does not exist — the record ends
`failed` with the interruption reason. -/
theorem c3_restart_recovery_amended_witness :
    ∃ e, findExecution (RemediationEngine.initializeEngine
        { workflows := [],
          executions := [{ execId := 7, workflowId := "ghost",
                           nodeId := "n1", status := "running",
                           startTime := 0 }],
          jobs := [] } 2000) 7 = some e ∧
      e.completionReason = some "Engine restart - execution interrupted" ∧
      e.status ≠ "running" ∧
      (e.status = "failed" ∨ e.status = "rolled_back") ∧
      (e.status = "rolled_back" ↔
        ∃ wf, findWorkflow
            { workflows := [],
              executions := [{ execId := 7, workflowId := "ghost",
                               nodeId := "n1", status := "running",
                               startTime := 0 }],
              jobs := [] } "ghost" = some wf ∧
          wf.rollbackEnabled = true ∧
          (wf.steps ≠ none ∨
            ([] : List StepResultRec).any (fun r => r.status == "success")
              = false)) :=
  c3_restart_recovery_amended
    { workflows := [],
      executions := [{ execId := 7, workflowId := "ghost", nodeId := "n1",
                       status := "running", startTime := 0 }],
      jobs := [] } 2000
    { execId := 7, workflowId := "ghost", nodeId := "n1",
      status := "running", startTime := 0 }
    (by decide) (List.mem_singleton.mpr rfl) rfl

/-- C9 witness: `c9_rollback_on_failure` on a store where a failed
execution with two successful steps (both declaring rollback scripts)
rolls back. -/
theorem c9_rollback_on_failure_witness :
    (RemediationEngine.completeExecution
      { workflows := [("wf1",
          { name := "w", enabled := true, startStep := some "a",
            steps := some [
              { id := "a", type := "script", scriptId := some "s1",
                rollbackScriptId := some "r1", onSuccess := some "b" },
              { id := "b", type := "script", scriptId := some "s2",
                rollbackScriptId := some "r2" }],
            rollbackEnabled := true })],
        executions := [{ execId := 1, workflowId := "wf1", nodeId := "n1",
                         status := "running", startTime := 0,
                         stepResults := [
                           { stepId := "a", status := "success" },
                           { stepId := "b", status := "success" }] }],
        jobs := [] }
      { execId := 1, workflowId := "wf1", nodeId := "n1",
        status := "running", startTime := 0,
        stepResults := [
          { stepId := "a", status := "success" },
          { stepId := "b", status := "success" }] }
      "failed" (some "step b exhausted retries") 5000).jobs
      = [] ++ rollbackJobsSpec [
          { id := "a", type := "script", scriptId := some "s1",
            rollbackScriptId := some "r1", onSuccess := some "b" },
          { id := "b", type := "script", scriptId := some "s2",
            rollbackScriptId := some "r2" }]
        { execId := 1, workflowId := "wf1", nodeId := "n1",
          status := "running", startTime := 0,
          stepResults := [
            { stepId := "a", status := "success" },
            { stepId := "b", status := "success" }] } 5000 :=
  ((c9_rollback_on_failure
      { workflows := [("wf1",
          { name := "w", enabled := true, startStep := some "a",
            steps := some [
              { id := "a", type := "script", scriptId := some "s1",
                rollbackScriptId := some "r1", onSuccess := some "b" },
              { id := "b", type := "script", scriptId := some "s2",
                rollbackScriptId := some "r2" }],
            rollbackEnabled := true })],
        executions := [{ execId := 1, workflowId := "wf1", nodeId := "n1",
                         status := "running", startTime := 0,
                         stepResults := [
                           { stepId := "a", status := "success" },
                           { stepId := "b", status := "success" }] }],
        jobs := [] }
      { execId := 1, workflowId := "wf1", nodeId := "n1",
        status := "running", startTime := 0,
        stepResults := [
          { stepId := "a", status := "success" },
          { stepId := "b", status := "success" }] }
      "failed" (some "step b exhausted retries")
      5000 rfl).2.2.2 _ _ rfl rfl rfl rfl).1


namespace WorkflowBuilder

/-- `Extends` is reflexive. -/
theorem Extends.rfl (st : DfsState) : Extends st st :=
  ⟨⟨[], by simp⟩, ⟨[], by simp⟩⟩

/-- `Extends` is transitive. -/
theorem Extends.trans {s1 s2 s3 : DfsState} (h1 : Extends s1 s2)
    (h2 : Extends s2 s3) : Extends s1 s3 := by
  obtain ⟨⟨v1, hv1⟩, ⟨e1, he1⟩⟩ := h1
  obtain ⟨⟨v2, hv2⟩, ⟨e2, he2⟩⟩ := h2
  exact ⟨⟨v1 ++ v2, by rw [hv2, hv1, List.append_assoc]⟩,
    ⟨e1 ++ e2, by rw [he2, he1, List.append_assoc]⟩⟩

/-- Growth of `visited` along `Extends`. -/
theorem Extends.visited_mem {s1 s2 : DfsState} (h : Extends s1 s2)
    {x : String} (hx : x ∈ s1.visited) : x ∈ s2.visited := by
  obtain ⟨⟨t, ht⟩, -⟩ := h
  rw [ht]; exact List.mem_append_left t hx

/-- `visited` never shrinks along `Extends`. -/
theorem Extends.visited_len {s1 s2 : DfsState} (h : Extends s1 s2) :
    s1.visited.length ≤ s2.visited.length := by
  obtain ⟨⟨t, ht⟩, -⟩ := h
  rw [ht, List.length_append]; omega

/-- If the extended state has no errors, neither had the original. -/
theorem Extends.errors_nil {s1 s2 : DfsState} (h : Extends s1 s2)
    (h2 : s2.errors = []) : s1.errors = [] := by
  obtain ⟨-, ⟨t, ht⟩⟩ := h
  rw [ht] at h2
  exact (List.append_eq_nil.mp h2).1

/-- A found step is a member with the looked-up id. -/
theorem stepMapFind_mem (steps : List Step) (u : String) (st : Step)
    (h : stepMapFind steps u = some st) : st ∈ steps ∧ st.id = u := by
  rw [stepMapFind] at h
  suffices hgen : ∀ (acc : Option Step),
      steps.foldl (fun acc s => if s.id == u then some s else acc) acc
        = some st →
      (st ∈ steps ∧ st.id = u) ∨ acc = some st by
    rcases hgen none h with hok | hcontra
    · exact hok
    · cases hcontra
  clear h
  induction steps with
  | nil => intro acc h2; exact Or.inr h2
  | cons s rest ih =>
    intro acc h2
    rw [List.foldl_cons] at h2
    rcases ih _ h2 with ⟨hmem, hid⟩ | hacc
    · exact Or.inl ⟨List.mem_cons_of_mem s hmem, hid⟩
    · by_cases hs : (s.id == u) = true
      · rw [if_pos hs] at hacc
        injection hacc with hacc
        subst hacc
        exact Or.inl ⟨List.mem_cons_self s rest, by simpa using hs⟩
      · rw [if_neg hs] at hacc
        exact Or.inr hacc

/-- Transition targets are truthy, hence never the empty string. -/
theorem stepSuccessors_ne_empty (s : Step) (v : String)
    (hv : v ∈ stepSuccessors s) : v ≠ "" := by
  have htt : ∀ (o : Option String), v ∈ (truthyTarget o).toList → v ≠ "" := by
    intro o hvo
    cases o with
    | none => cases hvo
    | some x =>
      rw [truthyTarget] at hvo
      by_cases hx : x = ""
      · rw [if_pos hx] at hvo; cases hvo
      · rw [if_neg hx] at hvo
        rw [Option.toList_some, List.mem_singleton] at hvo
        subst hvo; exact hx
  rw [stepSuccessors] at hv
  rcases List.mem_append.mp hv with hv | hv
  · rcases List.mem_append.mp hv with hv | hv
    · exact htt _ hv
    · exact htt _ hv
  · by_cases hc : s.type = "condition"
    · rw [if_pos hc] at hv
      rcases List.mem_append.mp hv with hv | hv
      · exact htt _ hv
      · exact htt _ hv
    · rw [if_neg hc] at hv; cases hv

/-- Every transition target of a member step is in the search universe. -/
theorem succ_mem_dfsUniverse (startStep : Option String)
    (steps : List Step) (s : Step) (hs : s ∈ steps) (v : String)
    (hv : v ∈ stepSuccessors s) :
    v ∈ dfsUniverse startStep steps := by
  rw [dfsUniverse, List.mem_dedup]
  apply List.mem_append_right
  rw [List.mem_flatten]
  exact ⟨stepSuccessors s, List.mem_map_of_mem stepSuccessors hs, hv⟩

/-- Every step id is in the search universe. -/
theorem id_mem_dfsUniverse (startStep : Option String) (steps : List Step)
    (s : Step) (hs : s ∈ steps) :
    s.id ∈ dfsUniverse startStep steps := by
  rw [dfsUniverse, List.mem_dedup]
  apply List.mem_append_left
  apply List.mem_append_right
  exact List.mem_map_of_mem Step.id hs

/-- The truthy start step is in the search universe. -/
theorem start_mem_dfsUniverse (startStep : Option String) (steps : List Step)
    (s : String) (h : truthyTarget startStep = some s) :
    s ∈ dfsUniverse startStep steps := by
  rw [dfsUniverse, List.mem_dedup]
  apply List.mem_append_left
  apply List.mem_append_left
  rw [h]
  simp

/-- A duplicate-free list of members of `u` is no longer than `u`. -/
theorem nodup_length_le {l u : List String} (h : l.Nodup)
    (hs : ∀ x ∈ l, x ∈ u) : l.length ≤ u.length :=
  calc l.length = l.toFinset.card := (List.toFinset_card_of_nodup h).symm
  _ ≤ u.toFinset.card := Finset.card_le_card
      (fun x hx => List.mem_toFinset.mpr (hs x (List.mem_toFinset.mp hx)))
  _ ≤ u.length := u.toFinset_card_le

/-- `indexOf` skips a prefix the element avoids. -/
theorem indexOf_append_skip {a : String} {l1 : List String}
    (l2 : List String) (h : a ∉ l1) :
    (l1 ++ l2).indexOf a = l1.length + l2.indexOf a := by
  induction l1 with
  | nil => simp
  | cons b t ih =>
    have hba : (b == a) = false := by
      simp only [beq_eq_false_iff_ne, ne_eq]
      intro he
      exact h (List.mem_cons.mpr (Or.inl he.symm))
    have hat : a ∉ t := fun h2 => h (List.mem_cons_of_mem b h2)
    simp [List.indexOf_cons, hba, ih hat]
    omega

/-- The empty search state is trivially certified. -/
theorem cert_nil (steps : List Step) :
    Cert steps ⟨[], [], []⟩ :=
  ⟨[], fun x => by simp, fun u hu => absurd hu (List.not_mem_nil u)⟩

/-- A certificate depends only on `visited` and the stack. -/
theorem Cert.congr (steps : List Step) {s1 s2 : DfsState}
    (hv : s2.visited = s1.visited) (hs : s2.stack = s1.stack)
    (h : Cert steps s1) : Cert steps s2 := by
  obtain ⟨black, hchar, hclose⟩ := h
  exact ⟨black, fun x => by rw [hv, hs]; exact hchar x, hclose⟩

/-- Pushing an unvisited id onto both `visited` and the stack preserves
the certificate: the black set is unchanged. -/
theorem Cert.push (steps : List Step) (st : DfsState) (sid : String)
    (hnv : sid ∉ st.visited) (hC : Cert steps st) (e : List String) :
    Cert steps ⟨st.visited ++ [sid], st.stack ++ [sid], e⟩ := by
  obtain ⟨black, hchar, hclose⟩ := hC
  refine ⟨black, fun x => ?_, hclose⟩
  constructor
  · intro hx
    have h := (hchar x).mp hx
    have hxne : x ≠ sid := fun he => hnv (he ▸ h.1)
    refine ⟨List.mem_append_left _ h.1, fun hmem => ?_⟩
    rcases List.mem_append.mp hmem with h2 | h2
    · exact h.2 h2
    · exact hxne (List.mem_singleton.mp h2)
  · rintro ⟨hxv, hxs⟩
    rcases List.mem_append.mp hxv with h2 | h2
    · exact (hchar x).mpr ⟨h2, fun hmem => hxs (List.mem_append_left _ hmem)⟩
    · exact absurd (List.mem_append_right _ h2) hxs

/-- Popping an id whose every out-edge lands on a finished node turns it
black, at the top rank: the certificate survives. -/
theorem Cert.pop (steps : List Step) (st2 : DfsState) (sid : String)
    (hC : Cert steps st2) (hv : sid ∈ st2.visited) (hs : sid ∈ st2.stack)
    (hsucc : ∀ v, Edge steps sid v → v ∈ st2.visited ∧ v ∉ st2.stack)
    (ns : List String)
    (hns : ∀ x, x ∈ ns ↔ (x ∈ st2.stack ∧ x ≠ sid)) (e : List String) :
    Cert steps ⟨st2.visited, ns, e⟩ := by
  obtain ⟨black, hchar, hclose⟩ := hC
  have hsnb : sid ∉ black := fun h => ((hchar sid).mp h).2 hs
  refine ⟨black ++ [sid], fun x => ?_, ?_⟩
  · constructor
    · intro hx
      rcases List.mem_append.mp hx with h2 | h2
      · have h := (hchar x).mp h2
        exact ⟨h.1, fun hmem => h.2 ((hns x).mp hmem).1⟩
      · have hx2 : x = sid := List.mem_singleton.mp h2
        subst hx2
        exact ⟨hv, fun hmem => ((hns x).mp hmem).2 rfl⟩
    · rintro ⟨hxv, hxs⟩
      by_cases hxe : x = sid
      · subst hxe
        exact List.mem_append_right _ (List.mem_singleton.mpr rfl)
      · exact List.mem_append_left _
          ((hchar x).mpr ⟨hxv, fun hmem => hxs ((hns x).mpr ⟨hmem, hxe⟩)⟩)
  · intro u hu v hEdge
    rcases List.mem_append.mp hu with h2 | h2
    · have h := hclose u h2 v hEdge
      refine ⟨List.mem_append_left _ h.1, ?_⟩
      rw [List.indexOf_append_of_mem h.1, List.indexOf_append_of_mem h2]
      exact h.2
    · have hu2 : u = sid := List.mem_singleton.mp h2
      rw [hu2]
      obtain ⟨hvv, hvs⟩ := hsucc v (hu2 ▸ hEdge)
      have hvb : v ∈ black := (hchar v).mpr ⟨hvv, hvs⟩
      refine ⟨List.mem_append_left _ hvb, ?_⟩
      rw [List.indexOf_append_of_mem hvb, indexOf_append_skip _ hsnb]
      have hlt := List.indexOf_lt_length.mpr hvb
      have h0 : ([sid] : List String).indexOf sid = 0 := by simp
      rw [h0]
      omega

/-- Pushing an id absent from the stack and then filtering it out
restores the stack. -/
theorem filter_pop (stack : List String) (sid : String) (h : sid ∉ stack) :
    (stack ++ [sid]).filter (fun x => x ≠ sid) = stack := by
  rw [List.filter_append]
  have h1 : stack.filter (fun x => x ≠ sid) = stack :=
    List.filter_eq_self.mpr (fun x hx => decide_eq_true (fun hxx => h (hxx ▸ hx)))
  have h2 : ([sid] : List String).filter (fun x => x ≠ sid) = [] := by simp
  rw [h1, h2, List.append_nil]

/-- Membership in the restored stack, against the pushed stack. -/
theorem stack_pop_char (stack : List String) (sid : String) (h : sid ∉ stack) :
    ∀ x, x ∈ stack ↔ (x ∈ stack ++ [sid] ∧ x ≠ sid) := by
  intro x
  constructor
  · intro hx
    exact ⟨List.mem_append_left _ hx, fun he => h (he ▸ hx)⟩
  · rintro ⟨hx, hne⟩
    rcases List.mem_append.mp hx with h2 | h2
    · exact h2
    · exact absurd (List.mem_singleton.mp h2) hne

/-- Appending a fresh id keeps `visited` duplicate-free. -/
theorem nodup_push {l : List String} {a : String} (h : a ∉ l)
    (h2 : l.Nodup) : (l ++ [a]).Nodup := by
  rw [← List.concat_eq_append]
  exact h2.concat h

/-- Along a transition path out of a black node, the topological rank
strictly drops, so no black node lies on a cycle. -/
theorem cert_rank (steps : List Step) (black : List String)
    (hclose : ∀ u ∈ black, ∀ v, Edge steps u v →
      v ∈ black ∧ black.indexOf v < black.indexOf u) :
    ∀ a b, Relation.TransGen (Edge steps) a b → a ∈ black →
      b ∈ black ∧ black.indexOf b < black.indexOf a := by
  intro a b h
  induction h with
  | single h1 => intro ha; exact hclose a ha _ h1
  | tail h1 h2 ih =>
    intro ha
    obtain ⟨hb, hlt⟩ := ih ha
    obtain ⟨hc, hlt2⟩ := hclose _ hb _ h2
    exact ⟨hc, hlt2.trans hlt⟩

/-- Invariants of the sequential child searches of one expansion: given
the induction hypothesis for `detectCycle` at the child fuel, the fold
over a list of targets restores the stack, keeps `visited`
duplicate-free inside the universe, only appends to the state,
preserves the certificate, and — if no error was recorded — leaves
every nonempty target visited and off the entry stack. -/
theorem detectCycle_fold (steps : List Step) (univ : List String)
    (fuel : Nat) (path : List String)
    (HI : ∀ (sid : String) (pa : List String) (st : DfsState) r,
      r = detectCycle steps fuel sid pa st →
      st.visited.Nodup → (∀ x ∈ st.visited, x ∈ univ) →
      (∀ x ∈ st.stack, x ∈ st.visited) → (sid ≠ "" → sid ∈ univ) →
      univ.length + 1 ≤ fuel + st.visited.length →
      r.stack = st.stack ∧ r.visited.Nodup ∧ (∀ x ∈ r.visited, x ∈ univ) ∧
        Extends st r ∧ (sid ≠ "" → sid ∈ r.visited) ∧
        (r.errors = [] → sid ≠ "" → sid ∉ st.stack) ∧
        (r.errors = [] → Cert steps st → Cert steps r)) :
    ∀ (l : List String), (∀ t ∈ l, t ∈ univ) →
    ∀ (st : DfsState) r,
      r = l.foldl (fun acc tgt => detectCycle steps fuel tgt path acc) st →
      st.visited.Nodup → (∀ x ∈ st.visited, x ∈ univ) →
      (∀ x ∈ st.stack, x ∈ st.visited) →
      univ.length + 1 ≤ fuel + st.visited.length →
      r.stack = st.stack ∧ r.visited.Nodup ∧ (∀ x ∈ r.visited, x ∈ univ) ∧
        Extends st r ∧
        (r.errors = [] → Cert steps st → Cert steps r) ∧
        (r.errors = [] → ∀ t ∈ l, t ≠ "" → (t ∈ r.visited ∧ t ∉ st.stack)) := by
  intro l
  induction l with
  | nil =>
    intro hl st r hr h1 h2 h3 h5
    rw [List.foldl_nil] at hr
    subst hr
    exact ⟨rfl, h1, h2, Extends.rfl r, fun _ c => c,
      fun _ t ht => absurd ht (List.not_mem_nil t)⟩
  | cons t rest ihl =>
    intro hl st r hr h1 h2 h3 h5
    rw [List.foldl_cons] at hr
    obtain ⟨hcs, hcn, hcu, hcE, hcm, hcns, hcC⟩ :=
      HI t path st (detectCycle steps fuel t path st) rfl h1 h2 h3
        (fun _ => hl t (List.mem_cons_self t rest)) h5
    obtain ⟨hrs, hrn, hru, hrE, hrC, hrm⟩ :=
      ihl (fun x hx => hl x (List.mem_cons_of_mem t hx))
        (detectCycle steps fuel t path st) r hr hcn hcu
        (fun x hx => hcE.visited_mem (h3 x (hcs ▸ hx)))
        (by have := hcE.visited_len; omega)
    refine ⟨hrs.trans hcs, hrn, hru, hcE.trans hrE, ?_, ?_⟩
    · intro herr hC
      exact hrC herr (hcC (hrE.errors_nil herr) hC)
    · intro herr t2 ht2 ht2ne
      rcases List.mem_cons.mp ht2 with rfl | ht2rest
      · exact ⟨hrE.visited_mem (hcm ht2ne),
          hcns (hrE.errors_nil herr) ht2ne⟩
      · have h := hrm herr t2 ht2rest ht2ne
        exact ⟨h.1, fun hx => h.2 (by rw [hcs]; exact hx)⟩

/-- The heart of the cycle search: with enough fuel, `detectCycle`
restores the recursion stack, grows `visited` without duplicates inside
the universe, only appends to the state, visits every nonempty start
id, reports an error whenever the start id was already on the stack,
and — when no error is recorded — preserves the acyclicity
certificate. -/
theorem detectCycle_master (steps : List Step) (univ : List String)
    (husucc : ∀ s ∈ steps, ∀ v ∈ stepSuccessors s, v ∈ univ) :
    ∀ (fuel : Nat) (sid : String) (path : List String) (st : DfsState) r,
      r = detectCycle steps fuel sid path st →
      st.visited.Nodup → (∀ x ∈ st.visited, x ∈ univ) →
      (∀ x ∈ st.stack, x ∈ st.visited) → (sid ≠ "" → sid ∈ univ) →
      univ.length + 1 ≤ fuel + st.visited.length →
      r.stack = st.stack ∧ r.visited.Nodup ∧ (∀ x ∈ r.visited, x ∈ univ) ∧
        Extends st r ∧ (sid ≠ "" → sid ∈ r.visited) ∧
        (r.errors = [] → sid ≠ "" → sid ∉ st.stack) ∧
        (r.errors = [] → Cert steps st → Cert steps r) := by
  intro fuel
  induction fuel with
  | zero =>
    intro sid path st r hr h1 h2 h3 h4 h5
    have hle := nodup_length_le h1 h2
    exfalso
    omega
  | succ fuel ih =>
    intro sid path st r hr h1 h2 h3 h4 h5
    rw [detectCycle] at hr
    by_cases hsid : sid = ""
    · rw [if_pos hsid] at hr
      subst hr
      exact ⟨rfl, h1, h2, Extends.rfl r, fun h => absurd hsid h,
        fun _ h => absurd hsid h, fun _ c => c⟩
    · rw [if_neg hsid] at hr
      by_cases hstk : st.stack.contains sid = true
      · rw [if_pos hstk] at hr
        subst hr
        have hsidstk : sid ∈ st.stack := List.elem_iff.mp hstk
        refine ⟨rfl, h1, h2, ⟨⟨[], by simp⟩, ⟨_, rfl⟩⟩,
          fun _ => h3 sid hsidstk, ?_, ?_⟩
        · intro herr
          exact absurd herr (by simp)
        · intro herr
          exact absurd herr (by simp)
      · rw [if_neg hstk] at hr
        have hsidnstk : sid ∉ st.stack := fun hm => hstk (List.elem_iff.mpr hm)
        by_cases hvis : st.visited.contains sid = true
        · rw [if_pos hvis] at hr
          subst hr
          exact ⟨rfl, h1, h2, Extends.rfl r,
            fun _ => List.elem_iff.mp hvis, fun _ _ => hsidnstk, fun _ c => c⟩
        · rw [if_neg hvis] at hr
          have hsidnvis : sid ∉ st.visited :=
            fun hm => hvis (List.elem_iff.mpr hm)
          rcases hfind : stepMapFind steps sid with _ | step
          · simp only [hfind] at hr
            have hrv : r.visited = st.visited ++ [sid] := by rw [hr]
            have hre : r.errors = st.errors := by rw [hr]
            have hrs : r.stack =
                (st.stack ++ [sid]).filter (fun x => x ≠ sid) := by rw [hr]
            have hST : r.stack = st.stack :=
              hrs.trans (filter_pop st.stack sid hsidnstk)
            refine ⟨hST, ?_, ?_, ?_, ?_, fun _ _ => hsidnstk, ?_⟩
            · rw [hrv]
              exact nodup_push hsidnvis h1
            · intro x hx
              rw [hrv] at hx
              rcases List.mem_append.mp hx with h2x | h2x
              · exact h2 x h2x
              · rw [List.mem_singleton.mp h2x]
                exact h4 hsid
            · exact ⟨⟨[sid], hrv⟩, ⟨[], by rw [hre, List.append_nil]⟩⟩
            · intro _
              rw [hrv]
              exact List.mem_append_right _ (List.mem_singleton.mpr rfl)
            · intro _ hC
              have hC1 := Cert.push steps st sid hsidnvis hC st.errors
              have hsucc : ∀ v, Edge steps sid v →
                  v ∈ (⟨st.visited ++ [sid], st.stack ++ [sid],
                    st.errors⟩ : DfsState).visited ∧
                  v ∉ (⟨st.visited ++ [sid], st.stack ++ [sid],
                    st.errors⟩ : DfsState).stack := by
                rintro v ⟨step2, hfind2, hv2⟩
                rw [hfind] at hfind2
                exact Option.noConfusion hfind2
              have hCp := Cert.pop steps
                ⟨st.visited ++ [sid], st.stack ++ [sid], st.errors⟩ sid hC1
                (List.mem_append_right _ (List.mem_singleton.mpr rfl))
                (List.mem_append_right _ (List.mem_singleton.mpr rfl))
                hsucc st.stack (stack_pop_char st.stack sid hsidnstk) r.errors
              exact @Cert.congr steps
                ⟨st.visited ++ [sid], st.stack, r.errors⟩ r hrv hST hCp
          · simp only [hfind] at hr
            obtain ⟨hstepmem, hstepid⟩ := stepMapFind_mem steps sid step hfind
            set F := (stepSuccessors step).foldl
                (fun acc tgt => detectCycle steps fuel tgt (path ++ [sid]) acc)
                (⟨st.visited ++ [sid], st.stack ++ [sid], st.errors⟩ :
                  DfsState) with hF
            obtain ⟨hfs, hfn, hfu, hfE, hfC, hfm⟩ :=
              detectCycle_fold steps univ fuel (path ++ [sid]) ih
                (stepSuccessors step)
                (fun t ht => husucc step hstepmem t ht)
                ⟨st.visited ++ [sid], st.stack ++ [sid], st.errors⟩ F hF
                (nodup_push hsidnvis h1)
                (by
                  intro x hx
                  rcases List.mem_append.mp hx with h2x | h2x
                  · exact h2 x h2x
                  · rw [List.mem_singleton.mp h2x]
                    exact h4 hsid)
                (by
                  intro x hx
                  rcases List.mem_append.mp hx with h2x | h2x
                  · exact List.mem_append_left _ (h3 x h2x)
                  · exact List.mem_append_right _ h2x)
                (by
                  have hlen : (st.visited ++ [sid]).length =
                      st.visited.length + 1 := by simp
                  show univ.length + 1 ≤ fuel + (st.visited ++ [sid]).length
                  omega)
            have hrv : r.visited = F.visited := by rw [hr]
            have hre : r.errors = F.errors := by rw [hr]
            have hrs : r.stack = F.stack.filter (fun x => x ≠ sid) := by
              rw [hr]
            have hST : r.stack = st.stack := by
              rw [hrs, hfs]
              exact filter_pop st.stack sid hsidnstk
            have hsidF : sid ∈ F.visited :=
              hfE.visited_mem
                (List.mem_append_right _ (List.mem_singleton.mpr rfl))
            refine ⟨hST, ?_, ?_, ?_, ?_, fun _ _ => hsidnstk, ?_⟩
            · rw [hrv]
              exact hfn
            · intro x hx
              rw [hrv] at hx
              exact hfu x hx
            · refine Extends.trans (Extends.trans ?_ hfE) ?_
              · exact ⟨⟨[sid], rfl⟩, ⟨[], (List.append_nil st.errors).symm⟩⟩
              · exact ⟨⟨[], by rw [hrv, List.append_nil]⟩,
                  ⟨[], by rw [hre, List.append_nil]⟩⟩
            · intro _
              rw [hrv]
              exact hsidF
            · intro herr hC
              have herrF : F.errors = [] := by rw [← hre]; exact herr
              have hC1 := Cert.push steps st sid hsidnvis hC st.errors
              have hC2 : Cert steps F := hfC herrF hC1
              have hmem2 := hfm herrF
              have hsucc : ∀ v, Edge steps sid v →
                  v ∈ F.visited ∧ v ∉ F.stack := by
                rintro v ⟨step2, hfind2, hv2⟩
                rw [hfind] at hfind2
                injection hfind2 with hsteq
                rw [← hsteq] at hv2
                have hne := stepSuccessors_ne_empty step v hv2
                obtain ⟨hvv, hvns⟩ := hmem2 v hv2 hne
                refine ⟨hvv, ?_⟩
                rw [hfs]
                exact hvns
              have hCp := Cert.pop steps F sid hC2 hsidF
                (by
                  rw [hfs]
                  exact List.mem_append_right _ (List.mem_singleton.mpr rfl))
                hsucc st.stack
                (by
                  intro x
                  rw [hfs]
                  exact stack_pop_char st.stack sid hsidnstk x)
                r.errors
              exact @Cert.congr steps ⟨F.visited, st.stack, r.errors⟩ r
                hrv hST hCp

/-- The root loop: processing a list of steps preserves the stack and
the invariants, only appends to the state, preserves the certificate,
and leaves every nonempty processed step id visited. -/
theorem detectCycleRoots_master (steps : List Step) (univ : List String)
    (husucc : ∀ s ∈ steps, ∀ v ∈ stepSuccessors s, v ∈ univ)
    (hids : ∀ s ∈ steps, s.id ∈ univ) (fuel : Nat) :
    ∀ (l : List Step), (∀ s ∈ l, s ∈ steps) →
    ∀ (st : DfsState) r, r = detectCycleRoots steps fuel l st →
      st.visited.Nodup → (∀ x ∈ st.visited, x ∈ univ) →
      (∀ x ∈ st.stack, x ∈ st.visited) →
      univ.length + 1 ≤ fuel + st.visited.length →
      r.stack = st.stack ∧ r.visited.Nodup ∧ (∀ x ∈ r.visited, x ∈ univ) ∧
        Extends st r ∧
        (r.errors = [] → Cert steps st → Cert steps r) ∧
        (∀ s ∈ l, s.id ≠ "" → s.id ∈ r.visited) := by
  intro l
  induction l with
  | nil =>
    intro hl st r hr h1 h2 h3 h5
    rw [detectCycleRoots] at hr
    subst hr
    exact ⟨rfl, h1, h2, Extends.rfl r, fun _ c => c,
      fun s hs => absurd hs (List.not_mem_nil s)⟩
  | cons s rest ihl =>
    intro hl st r hr h1 h2 h3 h5
    rw [detectCycleRoots] at hr
    by_cases hc : st.visited.contains s.id = true
    · rw [if_pos hc] at hr
      have hr2 : r = detectCycleRoots steps fuel rest st := hr
      obtain ⟨hrs, hrn, hru, hrE, hrC, hrcov⟩ :=
        ihl (fun x hx => hl x (List.mem_cons_of_mem s hx)) st r hr2 h1 h2 h3 h5
      refine ⟨hrs, hrn, hru, hrE, hrC, ?_⟩
      intro s2 hs2 hs2ne
      rcases List.mem_cons.mp hs2 with rfl | hs2rest
      · exact hrE.visited_mem (List.elem_iff.mp hc)
      · exact hrcov s2 hs2rest hs2ne
    · rw [if_neg hc] at hr
      have hr2 : r = detectCycleRoots steps fuel rest
          (detectCycle steps fuel s.id [] st) := hr
      have hsmem : s ∈ steps := hl s (List.mem_cons_self s rest)
      obtain ⟨hcs, hcn, hcu, hcE, hcm, hcns, hcC⟩ :=
        detectCycle_master steps univ husucc fuel s.id [] st _ rfl h1 h2 h3
          (fun _ => hids s hsmem) h5
      obtain ⟨hrs, hrn, hru, hrE, hrC, hrcov⟩ :=
        ihl (fun x hx => hl x (List.mem_cons_of_mem s hx))
          (detectCycle steps fuel s.id [] st) r hr2 hcn hcu
          (fun x hx => hcE.visited_mem (h3 x (hcs ▸ hx)))
          (by have := hcE.visited_len; omega)
      refine ⟨hrs.trans hcs, hrn, hru, hcE.trans hrE, ?_, ?_⟩
      · intro herr hC
        exact hrC herr (hcC (hrE.errors_nil herr) hC)
      · intro s2 hs2 hs2ne
        rcases List.mem_cons.mp hs2 with rfl | hs2rest
        · exact hrE.visited_mem (hcm hs2ne)
        · exact hrcov s2 hs2rest hs2ne

/-- A cycle contradicts an error-free run of the root loop from a
clean-stack state: the final certificate would rank the cycle's nodes
topologically. -/
theorem roots_cycle_contradiction (startStep : Option String)
    (steps : List Step) (st1 : DfsState) (hcyc : HasCycle steps)
    (h1 : st1.visited.Nodup)
    (h2 : ∀ x ∈ st1.visited, x ∈ dfsUniverse startStep steps)
    (h3 : st1.stack = [])
    (h4 : st1.errors = [] → Cert steps st1)
    (hfin : (detectCycleRoots steps
      ((dfsUniverse startStep steps).length + 1) steps st1).errors = []) :
    False := by
  obtain ⟨hrs, hrn, hru, hrE, hrC, hrcov⟩ :=
    detectCycleRoots_master steps (dfsUniverse startStep steps)
      (fun s hs v hv => succ_mem_dfsUniverse startStep steps s hs v hv)
      (fun s hs => id_mem_dfsUniverse startStep steps s hs)
      ((dfsUniverse startStep steps).length + 1) steps (fun x hx => hx)
      st1 _ rfl h1 h2
      (by
        intro x hx
        rw [h3] at hx
        cases hx)
      (by omega)
  have hCert := hrC hfin (h4 (hrE.errors_nil hfin))
  obtain ⟨black, hchar, hclose⟩ := hCert
  obtain ⟨u, hu⟩ := hcyc
  have hinc : ∃ w, Edge steps w u := by
    cases hu with
    | single h => exact ⟨u, h⟩
    | tail h1 h2 => exact ⟨_, h2⟩
  obtain ⟨w, stw, hfw, humem⟩ := hinc
  have hune : u ≠ "" := stepSuccessors_ne_empty stw u humem
  obtain ⟨v, huv, -⟩ := Relation.TransGen.head'_iff.mp hu
  obtain ⟨stu, hfu, hvmem⟩ := huv
  obtain ⟨hstumem, hstuid⟩ := stepMapFind_mem steps u stu hfu
  have hucov : u ∈ (detectCycleRoots steps
      ((dfsUniverse startStep steps).length + 1) steps st1).visited := by
    have h := hrcov stu hstumem (by rw [hstuid]; exact hune)
    rw [hstuid] at h
    exact h
  have hub : u ∈ black := (hchar u).mpr ⟨hucov, by
    rw [hrs, h3]
    exact List.not_mem_nil u⟩
  have hrank := cert_rank steps black hclose u u hu hub
  exact absurd hrank.2 (lt_irrefl _)

/-- Completeness of `checkCircularDependencies`: a cycle in the
transition graph always leaves at least one collected error. -/
theorem checkCircular_errors_ne_nil (startStep : Option String)
    (steps : List Step) (hcyc : HasCycle steps) :
    (checkCircularDependencies startStep steps).2 ≠ [] := by
  intro hfin
  have h2 : (detectCycleRoots steps
      ((dfsUniverse startStep steps).length + 1) steps
      (match truthyTarget startStep with
        | some s => detectCycle steps
            ((dfsUniverse startStep steps).length + 1) s [] ⟨[], [], []⟩
        | none => (⟨[], [], []⟩ : DfsState))).errors = [] := hfin
  cases htr : truthyTarget startStep with
  | none =>
    rw [htr] at h2
    exact roots_cycle_contradiction startStep steps ⟨[], [], []⟩ hcyc
      List.nodup_nil (fun x hx => absurd hx (List.not_mem_nil x)) rfl
      (fun _ => cert_nil steps) h2
  | some s =>
    rw [htr] at h2
    obtain ⟨hcs, hcn, hcu, hcE, hcm, hcns, hcC⟩ :=
      detectCycle_master steps (dfsUniverse startStep steps)
        (fun s2 hs v hv => succ_mem_dfsUniverse startStep steps s2 hs v hv)
        ((dfsUniverse startStep steps).length + 1) s [] ⟨[], [], []⟩ _ rfl
        List.nodup_nil (fun x hx => absurd hx (List.not_mem_nil x))
        (fun x hx => absurd hx (List.not_mem_nil x))
        (fun _ => start_mem_dfsUniverse startStep steps s htr)
        (by simp)
    exact roots_cycle_contradiction startStep steps _ hcyc hcn hcu hcs
      (fun herr => hcC herr (cert_nil steps)) h2

/-- A five-way append whose last block is nonempty is nonempty. -/
theorem append_isEmpty_false (a b c d e : List String) (he : e ≠ []) :
    (a ++ b ++ c ++ d ++ e).isEmpty = false := by
  cases hb : (a ++ b ++ c ++ d ++ e).isEmpty with
  | false => rfl
  | true => exact absurd (List.append_eq_nil.mp (List.isEmpty_iff.mp hb)).2 he

/-- Workflow validation fails on any workflow whose steps contain a
transition cycle: the circular-dependency block of the error list is
nonempty. -/
theorem validateWorkflow_cycle (urlOk : String → Bool) (wf : Workflow)
    (steps : List Step) (hsteps : wf.steps = some steps)
    (hcyc : HasCycle steps) :
    (validateWorkflow urlOk wf).1 = false := by
  simp only [validateWorkflow, hsteps]
  by_cases hempty : steps.isEmpty = true
  · rw [if_pos hempty]
  · rw [if_neg hempty]
    exact append_isEmpty_false _ _ _ _ _
      (checkCircular_errors_ne_nil wf.startStep steps hcyc)

end WorkflowBuilder

/-- C6: Workflow validation detects every cycle in the transition
graph: whenever the steps of a workflow contain a directed cycle of
truthy transitions, `validateWorkflow` reports the workflow invalid —
including cycles in components not reachable from `startStep`, which
the root loop over still-unvisited steps catches.  Concretely, the
two-step cycle `A.onSuccess = B, B.onSuccess = A` fails validation
with the circular-dependency error naming the cycle, the acyclic
chain `A.onSuccess = B, B.onSuccess = C` passes the structural
checks, and the cycle hidden behind the disconnected start step `S`
is still reported. -/
theorem c6_cycle_detection :
    (∀ (urlOk : String → Bool) (wf : Workflow) (steps : List Step),
        wf.steps = some steps → WorkflowBuilder.HasCycle steps →
        (WorkflowBuilder.validateWorkflow urlOk wf).1 = false) ∧
    ((WorkflowBuilder.validateWorkflow (fun _ => true) wfCycle).1 = false ∧
      "Circular dependency detected: A -> B -> A" ∈
        (WorkflowBuilder.validateWorkflow (fun _ => true) wfCycle).2) ∧
    (WorkflowBuilder.validateWorkflow (fun _ => true) wfChain).1 = true ∧
    ((WorkflowBuilder.validateWorkflow (fun _ => true) wfDisc).1 = false ∧
      "Circular dependency detected: A -> B -> A" ∈
        (WorkflowBuilder.validateWorkflow (fun _ => true) wfDisc).2) :=
  ⟨fun urlOk wf steps hsteps hcyc =>
      WorkflowBuilder.validateWorkflow_cycle urlOk wf steps hsteps hcyc,
    ⟨by decide, by decide⟩, by decide, ⟨by decide, by decide⟩⟩

/-- Witness for C6: the general completeness conjunct applied to the
concrete cyclic workflow, with its two-edge cycle `A → B → A` supplied
explicitly. -/
theorem c6_cycle_detection_witness :
    (WorkflowBuilder.validateWorkflow (fun _ => true) wfCycle).1 = false :=
  c6_cycle_detection.1 (fun _ => true) wfCycle wfCycleSteps rfl
    ⟨"A", Relation.TransGen.tail
      (@Relation.TransGen.single String (WorkflowBuilder.Edge wfCycleSteps)
        "A" "B" ⟨_, rfl, by decide⟩)
      ⟨_, rfl, by decide⟩⟩

end ScriptTask
